import Mathlib

/-!
Shallow embedding of the WebIO client state-reconciliation core
(`webio_api/__init__.py`).  The transport collaborator (`ApiClient`) performs
network requests only and carries no state relevant to reconciliation, so it is
not modelled; the async command wrappers (`turn_on`, `arm`, ...) are verbatim
pass-throughs and are likewise out of scope.

Python dictionaries coming from the device are modelled as structures of
optional fields (a `none` field is an absent key).  The two exceptions the
Python core can raise out of a dictionary access, `KeyError` and
`AttributeError`, are modelled by an explicit error type; fallible operations
return `Except`.
-/

namespace Webio

/-- The two Python exception kinds the modelled code can raise:
`KeyError` from a `dict[...]` access on a missing key, and `AttributeError`
from calling `.replace` on a non-string value. -/
inductive PyErr where
  | keyError
  | attributeError
deriving DecidableEq

/-- A dynamically typed Python value as far as `refresh_device_info` inspects
one: either a string, or any non-string value (on which `.replace` raises
`AttributeError`). -/
inductive PyVal where
  | str : String → PyVal
  | nonStr : PyVal
deriving DecidableEq

/-- `Output.__init__` (source lines 27-38): identity `index`, optional boolean
`state`, `available` computed as `self.state is not None`, and the owning
device serial. -/
structure Output where
  index : Int
  state : Option Bool
  available : Bool
  webio_serial : String
deriving DecidableEq

/-- `Output(api_client, index, serial, state)`: mirrors the constructor, which
sets `available` from the passed state (default `None`). -/
def Output.make (index : Int) (serial : String) (state : Option Bool) : Output :=
  { index := index, state := state, available := state.isSome, webio_serial := serial }

/-- `Zone.__init__` (source lines 53-66): identity `index`, optional `name`
(initialised to `None`), optional string `state`, `pass_type` initialised to 2,
`available` computed as `self.state is not None`, and the device serial. -/
structure Zone where
  index : Int
  name : Option String
  state : Option String
  pass_type : Int
  available : Bool
  webio_serial : String
deriving DecidableEq

/-- `Zone(api_client, index, serial, state)`: mirrors the constructor. -/
def Zone.make (index : Int) (serial : String) (state : Option String) : Zone :=
  { index := index, name := none, state := state, pass_type := 2,
    available := state.isSome, webio_serial := serial }

/-- One entry of the `outputs` array of a raw status snapshot: the keys
`index` and `status`, each possibly absent. -/
structure OutputDesc where
  index : Option Int
  status : Option String
deriving DecidableEq

/-- One entry of the `zones` array of a raw status snapshot: the keys `index`,
`name`, `status` and `passType`, each possibly absent. -/
structure ZoneDesc where
  index : Option Int
  name : Option String
  status : Option String
  pass_type : Option Int
deriving DecidableEq

/-- The raw snapshot consumed by `update_device_status`: optional `outputs`
and `zones` arrays (`none` models an absent key, for which `dict.get` returns
`None`). -/
structure StatusDict where
  outputs : Option (List OutputDesc)
  zones : Option (List ZoneDesc)
deriving DecidableEq

/-- The response of `ApiClient.get_info` as far as `refresh_device_info`
inspects it: the `webio-serial` and `webio-name` keys, each possibly absent,
with dynamically typed values. -/
structure InfoResponse where
  webio_serial : Option PyVal
  webio_name : Option PyVal
deriving DecidableEq

/-- The mutable state of a `WebioAPI` instance: the `_info` dictionary
(modelled by its two populated keys `serial` and `name`) and the two retained
entity collections. -/
structure WebioState where
  info_serial : Option String
  info_name : Option PyVal
  outputs : List Output
  zones : List Zone
deriving DecidableEq

/-- `WebioAPI.__init__` (source lines 81-85): empty `_info` dictionary and
empty retained collections. -/
def initState : WebioState :=
  { info_serial := none, info_name := none, outputs := [], zones := [] }

/-- `WebioAPI._convert_outputs_status` (source lines 203-210). -/
def convert_outputs_status (output_status : Option String) : Option Bool :=
  match output_status with
  | none => none
  | some v => if v = ("true") then some true
              else if v = ("false") then some false
              else none

/-- `WebioAPI._convert_zone_status` (source lines 218-227). -/
def convert_zone_status (zone_status : Option String) : Option String :=
  match zone_status with
  | none => none
  | some v => if v = ("alarm") then some ("triggered")
              else if v = ("armed") then some ("armed_away")
              else if v = ("disarmed") then some ("disarmed")
              else none

/-- `WebioAPI._get_output` (source lines 197-201): first retained output with
the given index, scanning in list order. -/
def get_output (outs : List Output) (index : Int) : Option Output :=
  outs.find? (fun o => o.index == index)

/-- `WebioAPI._get_zone` (source lines 212-216). -/
def get_zone (zs : List Zone) (index : Int) : Option Zone :=
  zs.find? (fun z => z.index == index)

/-- The mark-unavailable pass of `_update_outputs` (source lines 127-129):
`out.state = None; out.available = False`. -/
def markOutputUnavailable (o : Output) : Output :=
  { o with state := none, available := false }

/-- The mark-unavailable pass of `_update_zones` (source lines 158-160). -/
def markZoneUnavailable (z : Zone) : Zone :=
  { z with state := none, available := false }

/-- The field assignments of the `_update_outputs` snapshot pass (source lines
144-145): `webio_output.state = ...; webio_output.available = state is not
None`. -/
def outApply (o : Output) (st : Option Bool) : Output :=
  { o with state := st, available := st.isSome }

/-- The field assignments of the `_update_zones` snapshot pass (source lines
177-180): name, state, available and pass_type. -/
def zoneApply (z : Zone) (nm : Option String) (st : Option String) (pt : Int) : Zone :=
  { z with name := nm, state := st, available := st.isSome, pass_type := pt }

/-- In-place mutation of the output found by `_get_output`: the first list
entry with the given index (if any) receives the snapshot-pass field
assignments; all other entries are untouched. -/
def setOutputState (outs : List Output) (index : Int) (st : Option Bool) : List Output :=
  match outs with
  | [] => []
  | o :: rest =>
    if o.index == index then outApply o st :: rest
    else o :: setOutputState rest index st

/-- In-place mutation of the zone found by `_get_zone`. -/
def setZoneFields (zs : List Zone) (index : Int) (nm : Option String)
    (st : Option String) (pt : Int) : List Zone :=
  match zs with
  | [] => []
  | z :: rest =>
    if z.index == index then zoneApply z nm st pt :: rest
    else z :: setZoneFields rest index nm st pt

/-- `index: int = o.get(KEY_INDEX, -1)` (source lines 132 and 163): the index
a descriptor carries, defaulting to -1 when the key is absent. -/
def outDescIndex (d : OutputDesc) : Int := d.index.getD (-1)

/-- Same extraction for zone descriptors. -/
def zoneDescIndex (d : ZoneDesc) : Int := d.index.getD (-1)

/-- The descriptor loop of `_update_outputs` (source lines 131-145).  State
threaded through the loop: the retained list being mutated in place, the
`current_indexes` accumulator, and the `new_outputs` accumulator.  A created
`Output` object is shared between the retained list and `new_outputs`, so an
in-place update of a retained output is also visible through `new_outputs`
(there is at most one retained output per created index, so updating the
first index match reaches exactly the shared object); creating an output
reads `self._info[KEY_DEVICE_SERIAL]`, which raises `KeyError` when the
serial was never populated. -/
def outputsLoop (serial : Option String) (outs : List Output) (seen : List Int)
    (created : List Output) (ds : List OutputDesc) :
    Except PyErr (List Output × List Int × List Output) :=
  match ds with
  | [] => .ok (outs, seen, created)
  | d :: rest =>
    if outDescIndex d < 0 then
      outputsLoop serial outs seen created rest
    else
      match get_output outs (outDescIndex d) with
      | some _ =>
        outputsLoop serial
          (setOutputState outs (outDescIndex d) (convert_outputs_status d.status))
          (seen ++ [outDescIndex d])
          (setOutputState created (outDescIndex d) (convert_outputs_status d.status)) rest
      | none =>
        match serial with
        | none => .error .keyError
        | some ser =>
          outputsLoop serial
            (outs ++ [outApply (Output.make (outDescIndex d) ser none) (convert_outputs_status d.status)])
            (seen ++ [outDescIndex d])
            (created ++ [outApply (Output.make (outDescIndex d) ser none) (convert_outputs_status d.status)]) rest

/-- The descriptor loop of `_update_zones` (source lines 162-180). -/
def zonesLoop (serial : Option String) (zs : List Zone) (seen : List Int)
    (created : List Zone) (ds : List ZoneDesc) :
    Except PyErr (List Zone × List Int × List Zone) :=
  match ds with
  | [] => .ok (zs, seen, created)
  | d :: rest =>
    if zoneDescIndex d < 0 then
      zonesLoop serial zs seen created rest
    else
      match get_zone zs (zoneDescIndex d) with
      | some _ =>
        zonesLoop serial
          (setZoneFields zs (zoneDescIndex d) d.name (convert_zone_status d.status) (d.pass_type.getD 2))
          (seen ++ [zoneDescIndex d])
          (setZoneFields created (zoneDescIndex d) d.name (convert_zone_status d.status) (d.pass_type.getD 2)) rest
      | none =>
        match serial with
        | none => .error .keyError
        | some ser =>
          zonesLoop serial
            (zs ++ [zoneApply (Zone.make (zoneDescIndex d) ser none) d.name (convert_zone_status d.status) (d.pass_type.getD 2)])
            (seen ++ [zoneDescIndex d])
            (created ++ [zoneApply (Zone.make (zoneDescIndex d) ser none) d.name (convert_zone_status d.status) (d.pass_type.getD 2)]) rest

/-- `WebioAPI._update_outputs` (source lines 123-152) on its two inputs, the
`_info` serial and the retained output list: mark-unavailable pass, descriptor
loop, then the prune guarded by `len(current_indexes) > 0`.  Returns
`(new_outputs, retained outputs)`. -/
def update_outputs_core (serial : Option String) (cur : List Output)
    (ds : List OutputDesc) : Except PyErr (List Output × List Output) :=
  match outputsLoop serial (cur.map markOutputUnavailable) [] [] ds with
  | .error e => .error e
  | .ok (outs, seen, created) =>
    .ok (created, if 0 < seen.length then outs.filter (fun o => seen.contains o.index) else outs)

/-- `WebioAPI._update_zones` (source lines 154-184). -/
def update_zones_core (serial : Option String) (cur : List Zone)
    (ds : List ZoneDesc) : Except PyErr (List Zone × List Zone) :=
  match zonesLoop serial (cur.map markZoneUnavailable) [] [] ds with
  | .error e => .error e
  | .ok (zs, seen, created) =>
    .ok (created, if 0 < seen.length then zs.filter (fun z => seen.contains z.index) else zs)

/-- `_update_outputs` as a state transformer on the facade state. -/
def update_outputs (st : WebioState) (ds : List OutputDesc) :
    Except PyErr (List Output × WebioState) :=
  match update_outputs_core st.info_serial st.outputs ds with
  | .error e => .error e
  | .ok (created, outs) => .ok (created, { st with outputs := outs })

/-- `_update_zones` as a state transformer on the facade state. -/
def update_zones (st : WebioState) (ds : List ZoneDesc) :
    Except PyErr (List Zone × WebioState) :=
  match update_zones_core st.info_serial st.zones ds with
  | .error e => .error e
  | .ok (created, zs) => .ok (created, { st with zones := zs })

/-- `WebioAPI.update_device_status` (source lines 104-121): an absent category
key is logged and that category's delta left empty; a present key delegates to
the category's reconciliation, outputs first.  An uncaught exception from
either reconciliation propagates to the caller. -/
def update_device_status (st : WebioState) (s : StatusDict) :
    Except PyErr ((List Output × List Zone) × WebioState) :=
  match (match s.outputs with
         | none => Except.ok ([], st)
         | some ds => update_outputs st ds) with
  | .error e => .error e
  | .ok (newOuts, st1) =>
    match (match s.zones with
           | none => Except.ok ([], st1)
           | some ds => update_zones st1 ds) with
    | .error e => .error e
    | .ok (newZones, st2) => .ok ((newOuts, newZones), st2)

/-- Models `serial.replace("-", "")`: every hyphen removed. -/
def stripHyphens (s : String) : String :=
  String.mk (s.data.filter (fun c => c != '-'))

/-- `WebioAPI.refresh_device_info` (source lines 90-99), given the already
fetched `get_info` response.  The serial is read first and stored immediately
(hyphens stripped); the name is read afterwards.  `KeyError` (missing key) and
`AttributeError` (`.replace` on a non-string serial) are caught and reported
as a `false` return; any mutation performed before the raise is kept, exactly
as in the source. -/
def refresh_device_info (st : WebioState) (info : InfoResponse) : Bool × WebioState :=
  match info.webio_serial with
  | none => (false, st)
  | some PyVal.nonStr => (false, st)
  | some (PyVal.str serial) =>
    let st1 := { st with info_serial := some (stripHyphens serial) }
    match info.webio_name with
    | none => (false, st1)
    | some v => (true, { st1 with info_name := some v })

/-- `WebioAPI.get_serial_number` (source lines 186-189). -/
def get_serial_number (st : WebioState) : Option String :=
  st.info_serial

/-- Decidable equality of `Except` results, so that concrete runs of the
modelled operations can be checked by evaluation. -/
instance exceptDecEq {ε α : Type} [DecidableEq ε] [DecidableEq α] :
    DecidableEq (Except ε α) := fun a b =>
  match a, b with
  | .ok x, .ok y =>
    if h : x = y then isTrue (by rw [h]) else isFalse (fun he => by cases he; exact h rfl)
  | .error x, .error y =>
    if h : x = y then isTrue (by rw [h]) else isFalse (fun he => by cases he; exact h rfl)
  | .ok _, .error _ => isFalse (fun he => by cases he)
  | .error _, .ok _ => isFalse (fun he => by cases he)

/-- Facade states reachable from a fresh `WebioAPI` instance through the
state-mutating operations of this core: `refresh_device_info` calls and
successfully returning `update_device_status` calls. -/
inductive Reachable : WebioState → Prop where
  | init : Reachable initState
  | refresh (st : WebioState) (info : InfoResponse) :
      Reachable st → Reachable (refresh_device_info st info).2
  | update (st : WebioState) (s : StatusDict) (r : List Output × List Zone)
      (st' : WebioState) : Reachable st →
      update_device_status st s = .ok (r, st') → Reachable st'

/-! Proof-support definitions: recomputations of quantities the loops
accumulate, used to state and prove the reconciliation lemmas. -/

/-- The `current_indexes` list a full output pass accumulates: every
non-negative carried index, in descriptor order, duplicates kept. -/
def seenIdxOut (ds : List OutputDesc) : List Int :=
  ds.filterMap (fun d => if outDescIndex d < 0 then none else some (outDescIndex d))

/-- The `current_indexes` list a full zone pass accumulates. -/
def seenIdxZone (ds : List ZoneDesc) : List Int :=
  ds.filterMap (fun d => if zoneDescIndex d < 0 then none else some (zoneDescIndex d))

/-- The last descriptor in the list that carries the valid index `i`. -/
def lastDescOut (i : Int) : List OutputDesc → Option OutputDesc
  | [] => none
  | d :: rest =>
    match lastDescOut i rest with
    | some e => some e
    | none => if 0 ≤ outDescIndex d ∧ outDescIndex d = i then some d else none

/-- The last zone descriptor in the list that carries the valid index `i`. -/
def lastDescZone (i : Int) : List ZoneDesc → Option ZoneDesc
  | [] => none
  | d :: rest =>
    match lastDescZone i rest with
    | some e => some e
    | none => if 0 ≤ zoneDescIndex d ∧ zoneDescIndex d = i then some d else none

/-- The pure update part of an output pass: each valid descriptor mutates the
first retained output with its index (a no-op when no such output exists). -/
def applyOutputDescs (outs : List Output) (ds : List OutputDesc) : List Output :=
  match ds with
  | [] => outs
  | d :: rest =>
    if outDescIndex d < 0 then applyOutputDescs outs rest
    else applyOutputDescs
      (setOutputState outs (outDescIndex d) (convert_outputs_status d.status)) rest

/-- The pure update part of a zone pass. -/
def applyZoneDescs (zs : List Zone) (ds : List ZoneDesc) : List Zone :=
  match ds with
  | [] => zs
  | d :: rest =>
    if zoneDescIndex d < 0 then applyZoneDescs zs rest
    else applyZoneDescs
      (setZoneFields zs (zoneDescIndex d) d.name (convert_zone_status d.status)
        (d.pass_type.getD 2)) rest

/-- The outputs a pass over `ds` creates, with their creation-time fields,
relative to a retained list `outs`: one fresh output per valid index that is
absent, in order of first appearance.  (When the serial is unpopulated the
loop raises instead of creating; the empty list returned here is never used
in that situation because every lemma mentioning this function assumes a
successfully returning loop.) -/
def freshOutList (so : Option String) (outs : List Output) :
    List OutputDesc → List Output
  | [] => []
  | d :: rest =>
    if outDescIndex d < 0 then freshOutList so outs rest
    else match get_output outs (outDescIndex d) with
      | some _ => freshOutList so outs rest
      | none =>
        match so with
        | none => []
        | some ser =>
          outApply (Output.make (outDescIndex d) ser none) (convert_outputs_status d.status) ::
            freshOutList so
              (outs ++ [outApply (Output.make (outDescIndex d) ser none) (convert_outputs_status d.status)])
              rest

/-- The zones a pass over `ds` creates, with their creation-time fields. -/
def freshZoneList (so : Option String) (zs : List Zone) :
    List ZoneDesc → List Zone
  | [] => []
  | d :: rest =>
    if zoneDescIndex d < 0 then freshZoneList so zs rest
    else match get_zone zs (zoneDescIndex d) with
      | some _ => freshZoneList so zs rest
      | none =>
        match so with
        | none => []
        | some ser =>
          zoneApply (Zone.make (zoneDescIndex d) ser none) d.name (convert_zone_status d.status)
              (d.pass_type.getD 2) ::
            freshZoneList so
              (zs ++ [zoneApply (Zone.make (zoneDescIndex d) ser none) d.name
                (convert_zone_status d.status) (d.pass_type.getD 2)])
              rest

/-- The final fields a retained entity with index `i` ends up with after the
pure update part of a pass: the assignment of the last descriptor carrying
`i`, if any. -/
def outFinal (ds : List OutputDesc) (z : Output) : Output :=
  match lastDescOut z.index ds with
  | some d => outApply z (convert_outputs_status d.status)
  | none => z

/-- Zone analogue of `outFinal`. -/
def zoneFinal (ds : List ZoneDesc) (z : Zone) : Zone :=
  match lastDescZone z.index ds with
  | some d => zoneApply z d.name (convert_zone_status d.status) (d.pass_type.getD 2)
  | none => z

/-- The zone descriptors not carrying index `i` (used to peel the head entity
off a pure update pass: descriptors with its index stop at the head, the rest
act on the tail). -/
def dropIdxZone (i : Int) (ds : List ZoneDesc) : List ZoneDesc :=
  ds.filter (fun d => !(zoneDescIndex d == i))

/-- Zone lists on which the pure update pass is insensitive to a preceding
mark-unavailable pass: scanning left to right, each entity either is already
marked or is the first occurrence of an index that some remaining descriptor
still assigns. -/
def CondListZone : List Zone → List ZoneDesc → Prop
  | [], _ => True
  | x :: rest, ds =>
    (markZoneUnavailable x = x ∨ (lastDescZone x.index ds).isSome) ∧
      CondListZone rest (dropIdxZone x.index ds)

/-! Elementary lemmas about lookup and in-place update on output lists. -/

theorem get_output_nil (i : Int) : get_output [] i = none := rfl

theorem get_output_cons (o : Output) (rest : List Output) (i : Int) :
    get_output (o :: rest) i = if o.index == i then some o else get_output rest i := by
  cases h : (o.index == i) <;> simp [get_output, List.find?, h]

theorem outApply_index (o : Output) (v : Option Bool) : (outApply o v).index = o.index := rfl

theorem markOutputUnavailable_index (o : Output) :
    (markOutputUnavailable o).index = o.index := rfl

theorem setOutputState_nil (i : Int) (v : Option Bool) : setOutputState [] i v = [] := rfl

theorem setOutputState_index_map (xs : List Output) (i : Int) (v : Option Bool) :
    (setOutputState xs i v).map (fun o => o.index) = xs.map (fun o => o.index) := by
  induction xs with
  | nil => rfl
  | cons o rest ih =>
    simp only [setOutputState]
    split
    · simp [outApply]
    · simp [ih]

theorem get_output_set_self (xs : List Output) (i : Int) (v : Option Bool) :
    get_output (setOutputState xs i v) i = (get_output xs i).map (fun o => outApply o v) := by
  induction xs with
  | nil => rfl
  | cons o rest ih =>
    simp only [setOutputState]
    cases h : (o.index == i) with
    | true => simp [get_output_cons, outApply, h]
    | false => simp [get_output_cons, h, ih]

theorem get_output_set_ne (xs : List Output) (i j : Int) (v : Option Bool) (hij : j ≠ i) :
    get_output (setOutputState xs i v) j = get_output xs j := by
  induction xs with
  | nil => rfl
  | cons o rest ih =>
    simp only [setOutputState]
    cases h : (o.index == i) with
    | true =>
      have hoi : o.index = i := by simpa using h
      have hoj : (o.index == j) = false := by
        rw [hoi]; exact beq_eq_false_iff_ne.mpr (Ne.symm hij)
      simp [get_output_cons, outApply, hoj]
    | false => simp [get_output_cons, h, ih]

theorem setOutputState_nomatch (xs : List Output) (i : Int) (v : Option Bool)
    (h : get_output xs i = none) : setOutputState xs i v = xs := by
  induction xs with
  | nil => rfl
  | cons o rest ih =>
    rw [get_output_cons] at h
    cases ho : (o.index == i) with
    | true => rw [ho] at h; simp at h
    | false =>
      rw [ho] at h; simp at h
      simp [setOutputState, ho, ih h]

theorem setOutputState_self_id (xs : List Output) (i : Int) (v : Option Bool) (o : Output)
    (h : get_output xs i = some o) (hs : o.state = v) (ha : o.available = v.isSome) :
    setOutputState xs i v = xs := by
  induction xs with
  | nil => simp [get_output] at h
  | cons p rest ih =>
    rw [get_output_cons] at h
    cases hp : (p.index == i) with
    | true =>
      rw [hp] at h; simp at h
      subst h
      have : outApply p v = p := by
        cases p
        simp only [outApply]
        simp_all
      simp [setOutputState, hp, this]
    | false =>
      rw [hp] at h; simp at h
      simp [setOutputState, hp, ih h]

theorem setOutputState_absorb (xs : List Output) (i : Int) (v w : Option Bool) :
    setOutputState (setOutputState xs i v) i w = setOutputState xs i w := by
  induction xs with
  | nil => rfl
  | cons o rest ih =>
    simp only [setOutputState]
    cases h : (o.index == i) with
    | true => simp [setOutputState, outApply, h]
    | false => simp [setOutputState, h, ih]

theorem setOutputState_comm (xs : List Output) (i j : Int) (v w : Option Bool) (hij : i ≠ j) :
    setOutputState (setOutputState xs i v) j w = setOutputState (setOutputState xs j w) i v := by
  induction xs with
  | nil => rfl
  | cons o rest ih =>
    have hji : j ≠ i := Ne.symm hij
    cases hi : (o.index == i) with
    | true =>
      have hoi : o.index = i := by simpa using hi
      have hoj : (o.index == j) = false := by
        rw [hoi]; exact beq_eq_false_iff_ne.mpr hij
      simp [setOutputState, hi, hoj, outApply, hoi, hij, hji]
    | false =>
      cases hj : (o.index == j) with
      | true =>
        have hoj : o.index = j := by simpa using hj
        simp [setOutputState, hi, hj, outApply, hoj, hij, hji]
      | false => simp [setOutputState, hi, hj, ih]

theorem get_output_append (xs ys : List Output) (i : Int) :
    get_output (xs ++ ys) i =
      match get_output xs i with
      | some o => some o
      | none => get_output ys i := by
  induction xs with
  | nil => simp [get_output]
  | cons o rest ih =>
    cases h : (o.index == i) with
    | true => simp [get_output_cons, h, List.cons_append]
    | false => simp [get_output_cons, h, List.cons_append, ih]

theorem get_output_map_mark (xs : List Output) (i : Int) :
    get_output (xs.map markOutputUnavailable) i =
      (get_output xs i).map markOutputUnavailable := by
  induction xs with
  | nil => rfl
  | cons o rest ih =>
    cases h : (o.index == i) with
    | true => simp [get_output_cons, markOutputUnavailable, h]
    | false => simp [get_output_cons, markOutputUnavailable, h, ih]

theorem get_output_filter (xs : List Output) (p : Int → Bool) (i : Int) :
    get_output (xs.filter (fun o => p o.index)) i =
      if p i then get_output xs i else none := by
  induction xs with
  | nil => simp [get_output]
  | cons o rest ih =>
    cases hoi : (o.index == i) with
    | true =>
      have ho : o.index = i := by simpa using hoi
      cases hp : p i with
      | true => simp [List.filter_cons, ho, hp, get_output_cons]
      | false => simp [List.filter_cons, ho, hp, get_output_cons, ih]
    | false =>
      cases hp : p o.index with
      | true => simp [List.filter_cons, hp, get_output_cons, hoi, ih]
      | false => simp [List.filter_cons, hp, get_output_cons, hoi, ih]

theorem get_output_eq_none (xs : List Output) (i : Int) :
    get_output xs i = none ↔ ∀ o ∈ xs, o.index ≠ i := by
  simp [get_output, List.find?_eq_none]

theorem get_output_mem (xs : List Output) (i : Int) (o : Output)
    (h : get_output xs i = some o) : o ∈ xs ∧ o.index = i := by
  refine ⟨List.mem_of_find?_eq_some h, ?_⟩
  simpa using List.find?_some h

theorem get_output_append_single_ne (xs : List Output) (z : Output) (i : Int)
    (h : z.index ≠ i) : get_output (xs ++ [z]) i = get_output xs i := by
  rw [get_output_append]
  cases hx : get_output xs i with
  | some o => rfl
  | none => simp [get_output_cons, beq_eq_false_iff_ne.mpr h, get_output_nil]

theorem get_output_append_single_self (xs : List Output) (z : Output) (i : Int)
    (hz : z.index = i) (hx : get_output xs i = none) :
    get_output (xs ++ [z]) i = some z := by
  rw [get_output_append, hx]
  simp [get_output_cons, hz]

theorem get_output_set_isSome (xs : List Output) (i j : Int) (v : Option Bool) :
    (get_output (setOutputState xs i v) j).isSome = (get_output xs j).isSome := by
  by_cases hji : j = i
  · subst hji; rw [get_output_set_self]; cases get_output xs j <;> rfl
  · rw [get_output_set_ne _ _ _ _ hji]

theorem outApply_outApply (o : Output) (v w : Option Bool) :
    outApply (outApply o v) w = outApply o w := rfl

theorem outApply_mark (o : Output) (v : Option Bool) :
    outApply (markOutputUnavailable o) v = outApply o v := rfl

theorem mark_mark_out (o : Output) :
    markOutputUnavailable (markOutputUnavailable o) = markOutputUnavailable o := rfl

theorem mark_outApply (o : Output) (v : Option Bool) :
    markOutputUnavailable (outApply o v) = markOutputUnavailable o := rfl

theorem setOutputState_append_right (xs ys : List Output) (i : Int) (v : Option Bool)
    (h : get_output xs i = none) :
    setOutputState (xs ++ ys) i v = xs ++ setOutputState ys i v := by
  induction xs with
  | nil => rfl
  | cons o rest ih =>
    rw [get_output_cons] at h
    cases ho : (o.index == i) with
    | true => rw [ho] at h; simp at h
    | false =>
      rw [ho] at h; simp at h
      simp [setOutputState, ho, ih h]

theorem setOutputState_append_left (xs ys : List Output) (i : Int) (v : Option Bool)
    (h : (get_output xs i).isSome) :
    setOutputState (xs ++ ys) i v = setOutputState xs i v ++ ys := by
  induction xs with
  | nil => simp [get_output] at h
  | cons o rest ih =>
    rw [get_output_cons] at h
    cases ho : (o.index == i) with
    | true => simp [setOutputState, ho]
    | false =>
      rw [ho] at h; simp at h
      simp [setOutputState, ho, ih h]

theorem setOutputState_append_single_ne (xs : List Output) (z : Output) (i : Int)
    (v : Option Bool) (h : z.index ≠ i) :
    setOutputState (xs ++ [z]) i v = setOutputState xs i v ++ [z] := by
  cases hx : get_output xs i with
  | some o =>
    exact setOutputState_append_left xs [z] i v (by rw [hx]; rfl)
  | none =>
    rw [setOutputState_append_right xs [z] i v hx,
        setOutputState_nomatch xs i v hx]
    simp [setOutputState, beq_eq_false_iff_ne.mpr h]

/-! Lemmas about the recomputed seen-index list. -/

theorem seenIdxOut_nil : seenIdxOut [] = [] := rfl

theorem seenIdxOut_cons_neg (d : OutputDesc) (rest : List OutputDesc)
    (h : outDescIndex d < 0) : seenIdxOut (d :: rest) = seenIdxOut rest := by
  simp [seenIdxOut, List.filterMap_cons, h]

theorem seenIdxOut_cons_pos (d : OutputDesc) (rest : List OutputDesc)
    (h : ¬ outDescIndex d < 0) :
    seenIdxOut (d :: rest) = outDescIndex d :: seenIdxOut rest := by
  simp [seenIdxOut, List.filterMap_cons, h]

theorem lastDescOut_nil (i : Int) : lastDescOut i [] = none := rfl

theorem lastDescOut_cons (i : Int) (d : OutputDesc) (rest : List OutputDesc) :
    lastDescOut i (d :: rest) =
      match lastDescOut i rest with
      | some e => some e
      | none => if 0 ≤ outDescIndex d ∧ outDescIndex d = i then some d else none := rfl

theorem lastDescOut_cons_nocontrib (i : Int) (d : OutputDesc) (rest : List OutputDesc)
    (h : ¬ (0 ≤ outDescIndex d ∧ outDescIndex d = i)) :
    lastDescOut i (d :: rest) = lastDescOut i rest := by
  rw [lastDescOut_cons]
  cases hl : lastDescOut i rest <;> simp [h]

theorem mem_seenIdxOut_iff (i : Int) (ds : List OutputDesc) :
    i ∈ seenIdxOut ds ↔ (lastDescOut i ds).isSome := by
  induction ds with
  | nil => simp [seenIdxOut_nil, lastDescOut_nil]
  | cons d rest ih =>
    by_cases hneg : outDescIndex d < 0
    · rw [seenIdxOut_cons_neg _ _ hneg,
          lastDescOut_cons_nocontrib _ _ _ (by intro hc; omega)]
      exact ih
    · rw [seenIdxOut_cons_pos _ _ hneg, lastDescOut_cons]
      cases hl : lastDescOut i rest with
      | some e => simp [hl] at ih; simp [ih]
      | none =>
        simp [hl] at ih
        by_cases hii : outDescIndex d = i
        · simp [hii, ih, hneg]
          omega
        · simp [ih, Ne.symm hii, hii]

/-! Unfolding equations for the output descriptor loop. -/

theorem outputsLoop_nil (so : Option String) (outs : List Output) (seen : List Int)
    (created : List Output) :
    outputsLoop so outs seen created [] = .ok (outs, seen, created) := rfl

theorem outputsLoop_cons_neg (so : Option String) (outs : List Output) (seen : List Int)
    (created : List Output) (d : OutputDesc) (rest : List OutputDesc)
    (h : outDescIndex d < 0) :
    outputsLoop so outs seen created (d :: rest) = outputsLoop so outs seen created rest := by
  simp [outputsLoop, h]

theorem outputsLoop_cons_found (so : Option String) (outs : List Output) (seen : List Int)
    (created : List Output) (d : OutputDesc) (rest : List OutputDesc) (o : Output)
    (h : ¬ outDescIndex d < 0) (hg : get_output outs (outDescIndex d) = some o) :
    outputsLoop so outs seen created (d :: rest) =
      outputsLoop so (setOutputState outs (outDescIndex d) (convert_outputs_status d.status))
        (seen ++ [outDescIndex d])
        (setOutputState created (outDescIndex d) (convert_outputs_status d.status)) rest := by
  simp [outputsLoop, h, hg]

theorem outputsLoop_cons_new (so : Option String) (outs : List Output) (seen : List Int)
    (created : List Output) (d : OutputDesc) (rest : List OutputDesc) (ser : String)
    (h : ¬ outDescIndex d < 0) (hg : get_output outs (outDescIndex d) = none)
    (hs : so = some ser) :
    outputsLoop so outs seen created (d :: rest) =
      outputsLoop so
        (outs ++ [outApply (Output.make (outDescIndex d) ser none) (convert_outputs_status d.status)])
        (seen ++ [outDescIndex d])
        (created ++ [outApply (Output.make (outDescIndex d) ser none) (convert_outputs_status d.status)])
        rest := by
  simp [outputsLoop, h, hg, hs]

theorem outputsLoop_cons_err (so : Option String) (outs : List Output) (seen : List Int)
    (created : List Output) (d : OutputDesc) (rest : List OutputDesc)
    (h : ¬ outDescIndex d < 0) (hg : get_output outs (outDescIndex d) = none)
    (hs : so = none) :
    outputsLoop so outs seen created (d :: rest) = .error .keyError := by
  simp [outputsLoop, h, hg, hs]

/-! Behavioural lemmas for the output descriptor loop. -/

theorem outputsLoop_seen (ds : List OutputDesc) :
    ∀ so outs seen created a b c,
      outputsLoop so outs seen created ds = .ok (a, b, c) → b = seen ++ seenIdxOut ds := by
  induction ds with
  | nil =>
    intro so outs seen created a b c h
    rw [outputsLoop_nil] at h
    cases h
    simp [seenIdxOut_nil]
  | cons d rest ih =>
    intro so outs seen created a b c h
    by_cases hneg : outDescIndex d < 0
    · rw [outputsLoop_cons_neg _ _ _ _ _ _ hneg] at h
      rw [seenIdxOut_cons_neg _ _ hneg]
      exact ih _ _ _ _ _ _ _ h
    · cases hg : get_output outs (outDescIndex d) with
      | some o =>
        rw [outputsLoop_cons_found _ _ _ _ _ _ _ hneg hg] at h
        rw [seenIdxOut_cons_pos _ _ hneg, ih _ _ _ _ _ _ _ h]
        simp
      | none =>
        cases hso : so with
        | none => rw [outputsLoop_cons_err _ _ _ _ _ _ hneg hg hso] at h; cases h
        | some ser =>
          rw [outputsLoop_cons_new _ _ _ _ _ _ _ hneg hg hso] at h
          rw [seenIdxOut_cons_pos _ _ hneg, ih _ _ _ _ _ _ _ h]
          simp

theorem outputsLoop_no_valid (ds : List OutputDesc) (h : seenIdxOut ds = []) :
    ∀ so outs seen created,
      outputsLoop so outs seen created ds = .ok (outs, seen, created) := by
  induction ds with
  | nil => intro so outs seen created; exact outputsLoop_nil so outs seen created
  | cons d rest ih =>
    intro so outs seen created
    by_cases hneg : outDescIndex d < 0
    · rw [seenIdxOut_cons_neg _ _ hneg] at h
      rw [outputsLoop_cons_neg _ _ _ _ _ _ hneg]
      exact ih h _ _ _ _
    · rw [seenIdxOut_cons_pos _ _ hneg] at h
      cases h

theorem outputsLoop_total (ds : List OutputDesc) (ser : String) :
    ∀ outs seen created, ∃ r,
      outputsLoop (some ser) outs seen created ds = .ok r := by
  induction ds with
  | nil => intro outs seen created; exact ⟨_, outputsLoop_nil _ outs seen created⟩
  | cons d rest ih =>
    intro outs seen created
    by_cases hneg : outDescIndex d < 0
    · rw [outputsLoop_cons_neg _ _ _ _ _ _ hneg]; exact ih _ _ _
    · cases hg : get_output outs (outDescIndex d) with
      | some o => rw [outputsLoop_cons_found _ _ _ _ _ _ _ hneg hg]; exact ih _ _ _
      | none => rw [outputsLoop_cons_new _ _ _ _ _ _ ser hneg hg rfl]; exact ih _ _ _

theorem outputsLoop_presence (ds : List OutputDesc) :
    ∀ so outs seen created a b c,
      outputsLoop so outs seen created ds = .ok (a, b, c) →
      ∀ i, (get_output outs i).isSome → (get_output a i).isSome := by
  induction ds with
  | nil =>
    intro so outs seen created a b c h i hi
    rw [outputsLoop_nil] at h; cases h; exact hi
  | cons d rest ih =>
    intro so outs seen created a b c h i hi
    by_cases hneg : outDescIndex d < 0
    · rw [outputsLoop_cons_neg _ _ _ _ _ _ hneg] at h
      exact ih _ _ _ _ _ _ _ h i hi
    · cases hg : get_output outs (outDescIndex d) with
      | some o =>
        rw [outputsLoop_cons_found _ _ _ _ _ _ _ hneg hg] at h
        refine ih _ _ _ _ _ _ _ h i ?_
        rw [get_output_set_isSome]; exact hi
      | none =>
        cases hso : so with
        | none => rw [outputsLoop_cons_err _ _ _ _ _ _ hneg hg hso] at h; cases h
        | some ser =>
          rw [outputsLoop_cons_new _ _ _ _ _ _ _ hneg hg hso] at h
          refine ih _ _ _ _ _ _ _ h i ?_
          by_cases hii : i = outDescIndex d
          · subst hii; rw [hg] at hi; cases hi
          · rw [get_output_append_single_ne _ _ _ (by simpa using Ne.symm hii)]
            exact hi

theorem outputsLoop_seen_present (ds : List OutputDesc) :
    ∀ so outs seen created a b c,
      outputsLoop so outs seen created ds = .ok (a, b, c) →
      ∀ i, i ∈ seenIdxOut ds → (get_output a i).isSome := by
  induction ds with
  | nil => intro so outs seen created a b c h i hi; simp [seenIdxOut_nil] at hi
  | cons d rest ih =>
    intro so outs seen created a b c h i hi
    by_cases hneg : outDescIndex d < 0
    · rw [seenIdxOut_cons_neg _ _ hneg] at hi
      rw [outputsLoop_cons_neg _ _ _ _ _ _ hneg] at h
      exact ih _ _ _ _ _ _ _ h i hi
    · rw [seenIdxOut_cons_pos _ _ hneg] at hi
      cases hg : get_output outs (outDescIndex d) with
      | some o =>
        rw [outputsLoop_cons_found _ _ _ _ _ _ _ hneg hg] at h
        rcases List.mem_cons.mp hi with hii | hmem
        · subst hii
          refine outputsLoop_presence rest _ _ _ _ _ _ _ h (outDescIndex d) ?_
          rw [get_output_set_isSome, hg]; rfl
        · exact ih _ _ _ _ _ _ _ h i hmem
      | none =>
        cases hso : so with
        | none => rw [outputsLoop_cons_err _ _ _ _ _ _ hneg hg hso] at h; cases h
        | some ser =>
          rw [outputsLoop_cons_new _ _ _ _ _ _ _ hneg hg hso] at h
          rcases List.mem_cons.mp hi with hii | hmem
          · subst hii
            have hz : get_output
                (outs ++ [outApply (Output.make (outDescIndex d) ser none) (convert_outputs_status d.status)])
                (outDescIndex d) =
                some (outApply (Output.make (outDescIndex d) ser none) (convert_outputs_status d.status)) :=
              get_output_append_single_self _ _ _ rfl hg
            refine outputsLoop_presence rest _ _ _ _ _ _ _ h (outDescIndex d) ?_
            rw [hz]; rfl
          · exact ih _ _ _ _ _ _ _ h i hmem

theorem outputsLoop_untouched (ds : List OutputDesc) :
    ∀ so outs seen created a b c,
      outputsLoop so outs seen created ds = .ok (a, b, c) →
      ∀ i, i ∉ seenIdxOut ds → get_output a i = get_output outs i := by
  induction ds with
  | nil => intro so outs seen created a b c h i _; rw [outputsLoop_nil] at h; cases h; rfl
  | cons d rest ih =>
    intro so outs seen created a b c h i hi
    by_cases hneg : outDescIndex d < 0
    · rw [seenIdxOut_cons_neg _ _ hneg] at hi
      rw [outputsLoop_cons_neg _ _ _ _ _ _ hneg] at h
      exact ih _ _ _ _ _ _ _ h i hi
    · rw [seenIdxOut_cons_pos _ _ hneg] at hi
      have hii : i ≠ outDescIndex d := fun he => hi (by rw [he]; exact List.mem_cons_self _ _)
      have hmem : i ∉ seenIdxOut rest := fun hm => hi (List.mem_cons_of_mem _ hm)
      cases hg : get_output outs (outDescIndex d) with
      | some o =>
        rw [outputsLoop_cons_found _ _ _ _ _ _ _ hneg hg] at h
        rw [ih _ _ _ _ _ _ _ h i hmem, get_output_set_ne _ _ _ _ hii]
      | none =>
        cases hso : so with
        | none => rw [outputsLoop_cons_err _ _ _ _ _ _ hneg hg hso] at h; cases h
        | some ser =>
          rw [outputsLoop_cons_new _ _ _ _ _ _ _ hneg hg hso] at h
          rw [ih _ _ _ _ _ _ _ h i hmem,
              get_output_append_single_ne _ _ _ (by simpa using Ne.symm hii)]

/-- Last descriptor wins: after a successful pass, the first retained output
with a seen index carries exactly the fields assigned from the last descriptor
of that index — updated in place when an output with that index already
existed, freshly constructed (stamped with the populated serial) otherwise. -/
theorem outputsLoop_last_wins (ds : List OutputDesc) :
    ∀ so outs seen created a b c,
      outputsLoop so outs seen created ds = .ok (a, b, c) →
      ∀ i d, lastDescOut i ds = some d →
        (∀ e, get_output outs i = some e →
            get_output a i = some (outApply e (convert_outputs_status d.status))) ∧
        (get_output outs i = none →
            ∃ ser, so = some ser ∧
              get_output a i =
                some (outApply (Output.make i ser none) (convert_outputs_status d.status))) := by
  induction ds with
  | nil => intro so outs seen created a b c h i d hd; rw [lastDescOut_nil] at hd; cases hd
  | cons d0 rest ih =>
    intro so outs seen created a b c h i d hd
    by_cases hneg : outDescIndex d0 < 0
    · rw [lastDescOut_cons_nocontrib _ _ _ (by intro hc; omega)] at hd
      rw [outputsLoop_cons_neg _ _ _ _ _ _ hneg] at h
      exact ih _ _ _ _ _ _ _ h i d hd
    · by_cases hii : outDescIndex d0 = i
      · cases hg : get_output outs (outDescIndex d0) with
        | some e0 =>
          rw [outputsLoop_cons_found _ _ _ _ _ _ _ hneg hg] at h
          have hset : get_output
              (setOutputState outs (outDescIndex d0) (convert_outputs_status d0.status)) i =
              some (outApply e0 (convert_outputs_status d0.status)) := by
            rw [← hii, get_output_set_self, hg]; rfl
          cases hl : lastDescOut i rest with
          | none =>
            have hd0 : d = d0 := by
              rw [lastDescOut_cons, hl, if_pos ⟨by omega, hii⟩] at hd
              exact (Option.some_inj.mp hd).symm
            have hnr : i ∉ seenIdxOut rest := by
              rw [mem_seenIdxOut_iff, hl]; simp
            have hu := outputsLoop_untouched rest _ _ _ _ _ _ _ h i hnr
            constructor
            · intro e he
              have he0 : e = e0 := by
                rw [← hii, hg] at he; exact Option.some_inj.mp he.symm
              rw [hu, hset, hd0, he0]
            · intro hnone; rw [← hii, hg] at hnone; cases hnone
          | some dl =>
            have hdl : d = dl := by
              rw [lastDescOut_cons, hl] at hd; exact (Option.some_inj.mp hd).symm
            have ihh := ih _ _ _ _ _ _ _ h i d (by rw [hl, hdl])
            constructor
            · intro e he
              have he0 : e = e0 := by
                rw [← hii, hg] at he; exact Option.some_inj.mp he.symm
              rw [ihh.1 _ hset, outApply_outApply, he0]
            · intro hnone; rw [← hii, hg] at hnone; cases hnone
        | none =>
          cases hso : so with
          | none => rw [outputsLoop_cons_err _ _ _ _ _ _ hneg hg hso] at h; cases h
          | some ser =>
            subst hso
            rw [outputsLoop_cons_new _ _ _ _ _ _ _ hneg hg rfl] at h
            have hzin : get_output
                (outs ++ [outApply (Output.make (outDescIndex d0) ser none) (convert_outputs_status d0.status)]) i =
                some (outApply (Output.make (outDescIndex d0) ser none) (convert_outputs_status d0.status)) := by
              rw [← hii]; exact get_output_append_single_self _ _ _ rfl hg
            cases hl : lastDescOut i rest with
            | none =>
              have hd0 : d = d0 := by
                rw [lastDescOut_cons, hl, if_pos ⟨by omega, hii⟩] at hd
                exact (Option.some_inj.mp hd).symm
              have hnr : i ∉ seenIdxOut rest := by
                rw [mem_seenIdxOut_iff, hl]; simp
              have hu := outputsLoop_untouched rest _ _ _ _ _ _ _ h i hnr
              constructor
              · intro e he; rw [← hii, hg] at he; cases he
              · intro _
                refine ⟨ser, rfl, ?_⟩
                rw [hu, hzin, hd0, hii]
            | some dl =>
              have hdl : d = dl := by
                rw [lastDescOut_cons, hl] at hd; exact (Option.some_inj.mp hd).symm
              have ihh := ih _ _ _ _ _ _ _ h i d (by rw [hl, hdl])
              constructor
              · intro e he; rw [← hii, hg] at he; cases he
              · intro _
                refine ⟨ser, rfl, ?_⟩
                rw [ihh.1 _ hzin, outApply_outApply, hii]
      · rw [lastDescOut_cons_nocontrib _ _ _ (fun hc => hii hc.2)] at hd
        cases hg : get_output outs (outDescIndex d0) with
        | some e0 =>
          rw [outputsLoop_cons_found _ _ _ _ _ _ _ hneg hg] at h
          have ihh := ih _ _ _ _ _ _ _ h i d hd
          have hpres : get_output
              (setOutputState outs (outDescIndex d0) (convert_outputs_status d0.status)) i =
              get_output outs i :=
            get_output_set_ne _ _ _ _ (Ne.symm hii)
          constructor
          · intro e he; exact ihh.1 e (by rw [hpres]; exact he)
          · intro hn; exact ihh.2 (by rw [hpres]; exact hn)
        | none =>
          cases hso : so with
          | none => rw [outputsLoop_cons_err _ _ _ _ _ _ hneg hg hso] at h; cases h
          | some ser =>
            subst hso
            rw [outputsLoop_cons_new _ _ _ _ _ _ _ hneg hg rfl] at h
            have ihh := ih _ _ _ _ _ _ _ h i d hd
            have hpres : get_output
                (outs ++ [outApply (Output.make (outDescIndex d0) ser none) (convert_outputs_status d0.status)]) i =
                get_output outs i :=
              get_output_append_single_ne _ _ _ hii
            constructor
            · intro e he; exact ihh.1 e (by rw [hpres]; exact he)
            · intro hn; exact ihh.2 (by rw [hpres]; exact hn)

/-! Lemmas about the pure update part of an output pass. -/

theorem applyOutputDescs_nil (outs : List Output) : applyOutputDescs outs [] = outs := rfl

theorem applyOutputDescs_cons_neg (outs : List Output) (d : OutputDesc)
    (rest : List OutputDesc) (h : outDescIndex d < 0) :
    applyOutputDescs outs (d :: rest) = applyOutputDescs outs rest := by
  simp [applyOutputDescs, h]

theorem applyOutputDescs_cons_pos (outs : List Output) (d : OutputDesc)
    (rest : List OutputDesc) (h : ¬ outDescIndex d < 0) :
    applyOutputDescs outs (d :: rest) =
      applyOutputDescs
        (setOutputState outs (outDescIndex d) (convert_outputs_status d.status)) rest := by
  simp [applyOutputDescs, h]

theorem applyOutputDescs_nil_list (ds : List OutputDesc) : applyOutputDescs [] ds = [] := by
  induction ds with
  | nil => rfl
  | cons d rest ih =>
    by_cases hneg : outDescIndex d < 0
    · rw [applyOutputDescs_cons_neg _ _ _ hneg]; exact ih
    · rw [applyOutputDescs_cons_pos _ _ _ hneg, setOutputState_nil]; exact ih

theorem outFinal_nil (z : Output) : outFinal [] z = z := rfl

theorem outFinal_cons_nocontrib (d : OutputDesc) (rest : List OutputDesc) (z : Output)
    (h : ¬ (0 ≤ outDescIndex d ∧ outDescIndex d = z.index)) :
    outFinal (d :: rest) z = outFinal rest z := by
  unfold outFinal
  rw [lastDescOut_cons_nocontrib _ _ _ h]

theorem outFinal_index (ds : List OutputDesc) (z : Output) : (outFinal ds z).index = z.index := by
  unfold outFinal
  cases lastDescOut z.index ds <;> rfl

theorem outFinal_step (d : OutputDesc) (rest : List OutputDesc) (z : Output)
    (hge : ¬ outDescIndex d < 0) (hzi : outDescIndex d = z.index) :
    outFinal rest (outApply z (convert_outputs_status d.status)) = outFinal (d :: rest) z := by
  unfold outFinal
  rw [show (outApply z (convert_outputs_status d.status)).index = z.index from rfl,
      lastDescOut_cons]
  cases hl : lastDescOut z.index rest with
  | some dl => rfl
  | none =>
    have hcond : 0 ≤ outDescIndex d ∧ outDescIndex d = z.index := ⟨by omega, hzi⟩
    rw [if_pos hcond]

theorem outFinal_mark_of_seen (ds : List OutputDesc) (z : Output)
    (h : (lastDescOut z.index ds).isSome) :
    outFinal ds (markOutputUnavailable z) = outFinal ds z := by
  unfold outFinal
  rw [show (markOutputUnavailable z).index = z.index from rfl]
  cases hl : lastDescOut z.index ds with
  | some dl => rfl
  | none => rw [hl] at h; cases h

theorem get_output_append_none_left (xs ys : List Output) (i : Int)
    (h : get_output (xs ++ ys) i = none) : get_output xs i = none := by
  rw [get_output_append] at h
  cases hx : get_output xs i with
  | none => rfl
  | some o => rw [hx] at h; cases h

theorem get_output_append_single_isSome (xs : List Output) (z : Output) (j : Int) :
    (get_output (xs ++ [z]) j).isSome = ((get_output xs j).isSome || (z.index == j)) := by
  rw [get_output_append]
  cases hx : get_output xs j with
  | some o => rfl
  | none =>
    cases hz : (z.index == j) with
    | true => simp [get_output_cons, hz]
    | false => simp [get_output_cons, hz, get_output_nil]

/-- Splitting off a single appended output whose index is absent from the
prefix: the pure update pass treats it independently, leaving it with the
assignment of the last descriptor carrying its index. -/
theorem applyOutputDescs_append_single (ds : List OutputDesc) :
    ∀ X z, get_output X z.index = none →
      applyOutputDescs (X ++ [z]) ds = applyOutputDescs X ds ++ [outFinal ds z] := by
  induction ds with
  | nil => intro X z h; rw [applyOutputDescs_nil, applyOutputDescs_nil, outFinal_nil]
  | cons d rest ih =>
    intro X z h
    by_cases hneg : outDescIndex d < 0
    · rw [applyOutputDescs_cons_neg _ _ _ hneg, applyOutputDescs_cons_neg _ _ _ hneg,
          ih X z h, outFinal_cons_nocontrib _ _ _ (by intro hc; omega)]
    · rw [applyOutputDescs_cons_pos _ _ _ hneg, applyOutputDescs_cons_pos _ _ _ hneg]
      by_cases hzi : outDescIndex d = z.index
      · have hXnone : get_output X (outDescIndex d) = none := by rw [hzi]; exact h
        have h1 : setOutputState (X ++ [z]) (outDescIndex d) (convert_outputs_status d.status) =
            X ++ [outApply z (convert_outputs_status d.status)] := by
          rw [setOutputState_append_right _ _ _ _ hXnone]
          congr 1
          simp [setOutputState, hzi.symm]
        rw [h1, setOutputState_nomatch X _ _ hXnone,
            ih X (outApply z (convert_outputs_status d.status)) (by rw [show (outApply z (convert_outputs_status d.status)).index = z.index from rfl]; exact h),
            outFinal_step _ _ _ hneg hzi]
      · have hset : setOutputState (X ++ [z]) (outDescIndex d) (convert_outputs_status d.status) =
            setOutputState X (outDescIndex d) (convert_outputs_status d.status) ++ [z] :=
          setOutputState_append_single_ne _ _ _ _ (fun he => hzi he.symm)
        rw [hset, ih _ z (by rw [get_output_set_ne _ _ _ _ (fun he => hzi he.symm)]; exact h),
            outFinal_cons_nocontrib _ _ _ (fun hc => hzi hc.2)]

/-- Splitting off an appended block of outputs with pairwise distinct indices,
all absent from the prefix. -/
theorem applyOutputDescs_append_block (ds : List OutputDesc) :
    ∀ G X, (∀ z ∈ G, get_output X z.index = none) →
      ((G.map (fun z => z.index)).Nodup) →
      applyOutputDescs (X ++ G) ds = applyOutputDescs X ds ++ G.map (outFinal ds) := by
  intro G
  induction G with
  | nil => intro X _ _; simp
  | cons z G' ihg =>
    intro X habs hnod
    have h1 : get_output X z.index = none := habs z (List.mem_cons_self _ _)
    have hznotin : z.index ∉ G'.map (fun w => w.index) := by
      rw [List.map_cons] at hnod
      exact (List.nodup_cons.mp hnod).1
    have habs2 : ∀ w ∈ G', get_output (X ++ [z]) w.index = none := by
      intro w hw
      have hne : z.index ≠ w.index := by
        intro he; exact hznotin (he ▸ List.mem_map_of_mem _ hw)
      rw [get_output_append_single_ne _ _ _ hne]
      exact habs w (List.mem_cons_of_mem _ hw)
    have hnod2 : (G'.map (fun w => w.index)).Nodup := by
      rw [List.map_cons] at hnod
      exact (List.nodup_cons.mp hnod).2
    have hre : X ++ z :: G' = (X ++ [z]) ++ G' := by simp
    rw [hre, ihg (X ++ [z]) habs2 hnod2, applyOutputDescs_append_single ds X z h1,
        List.map_cons]
    simp

/-! Unfolding and structural lemmas for the created-output recomputation. -/

theorem freshOutList_nil (so : Option String) (outs : List Output) :
    freshOutList so outs [] = [] := rfl

theorem freshOutList_cons_neg (so : Option String) (outs : List Output) (d : OutputDesc)
    (rest : List OutputDesc) (h : outDescIndex d < 0) :
    freshOutList so outs (d :: rest) = freshOutList so outs rest := by
  simp [freshOutList, h]

theorem freshOutList_cons_found (so : Option String) (outs : List Output) (d : OutputDesc)
    (rest : List OutputDesc) (o : Output) (h : ¬ outDescIndex d < 0)
    (hg : get_output outs (outDescIndex d) = some o) :
    freshOutList so outs (d :: rest) = freshOutList so outs rest := by
  simp [freshOutList, h, hg]

theorem freshOutList_cons_new (so : Option String) (outs : List Output) (d : OutputDesc)
    (rest : List OutputDesc) (ser : String) (h : ¬ outDescIndex d < 0)
    (hg : get_output outs (outDescIndex d) = none) (hs : so = some ser) :
    freshOutList so outs (d :: rest) =
      outApply (Output.make (outDescIndex d) ser none) (convert_outputs_status d.status) ::
        freshOutList so
          (outs ++ [outApply (Output.make (outDescIndex d) ser none) (convert_outputs_status d.status)])
          rest := by
  simp [freshOutList, h, hg, hs]

theorem freshOutList_spec (ds : List OutputDesc) :
    ∀ so outs, (∀ z ∈ freshOutList so outs ds, get_output outs z.index = none) ∧
      ((freshOutList so outs ds).map (fun z => z.index)).Nodup := by
  induction ds with
  | nil => intro so outs; simp [freshOutList_nil]
  | cons d rest ih =>
    intro so outs
    by_cases hneg : outDescIndex d < 0
    · rw [freshOutList_cons_neg _ _ _ _ hneg]; exact ih so outs
    · cases hg : get_output outs (outDescIndex d) with
      | some o => rw [freshOutList_cons_found _ _ _ _ _ hneg hg]; exact ih so outs
      | none =>
        cases hso : so with
        | none => simp [freshOutList, hneg, hg]
        | some ser =>
          subst hso
          rw [freshOutList_cons_new _ _ _ _ ser hneg hg rfl]
          have ih2 := ih (some ser)
            (outs ++ [outApply (Output.make (outDescIndex d) ser none) (convert_outputs_status d.status)])
          constructor
          · intro z hz
            rcases List.mem_cons.mp hz with hz0 | hz'
            · subst hz0; exact hg
            · exact get_output_append_none_left _ _ _ (ih2.1 z hz')
          · rw [List.map_cons, List.nodup_cons]
            constructor
            · intro hmem
              rcases List.mem_map.mp hmem with ⟨w, hw, hwi⟩
              have := ih2.1 w hw
              rw [get_output_eq_none] at this
              exact this
                (outApply (Output.make (outDescIndex d) ser none) (convert_outputs_status d.status))
                (List.mem_append_right _ (List.mem_singleton_self _)) (by rw [hwi])
            · exact ih2.2

theorem freshOutList_mem_seen (ds : List OutputDesc) :
    ∀ so outs z, z ∈ freshOutList so outs ds → z.index ∈ seenIdxOut ds := by
  induction ds with
  | nil => intro so outs z hz; rw [freshOutList_nil] at hz; cases hz
  | cons d rest ih =>
    intro so outs z hz
    by_cases hneg : outDescIndex d < 0
    · rw [freshOutList_cons_neg _ _ _ _ hneg] at hz
      rw [seenIdxOut_cons_neg _ _ hneg]
      exact ih _ _ _ hz
    · rw [seenIdxOut_cons_pos _ _ hneg]
      cases hg : get_output outs (outDescIndex d) with
      | some o =>
        rw [freshOutList_cons_found _ _ _ _ _ hneg hg] at hz
        exact List.mem_cons_of_mem _ (ih _ _ _ hz)
      | none =>
        cases hso : so with
        | none => simp [freshOutList, hneg, hg, hso] at hz
        | some ser =>
          rw [freshOutList_cons_new _ _ _ _ _ hneg hg hso] at hz
          rcases List.mem_cons.mp hz with hz0 | hz'
          · subst hz0; exact List.mem_cons_self _ _
          · exact List.mem_cons_of_mem _ (ih _ _ _ hz')

theorem freshOutList_congr (ds : List OutputDesc) :
    ∀ so X Y, (∀ j, (get_output X j).isSome = (get_output Y j).isSome) →
      freshOutList so X ds = freshOutList so Y ds := by
  induction ds with
  | nil => intro so X Y _; rfl
  | cons d rest ih =>
    intro so X Y h
    by_cases hneg : outDescIndex d < 0
    · rw [freshOutList_cons_neg _ _ _ _ hneg, freshOutList_cons_neg _ _ _ _ hneg]
      exact ih so X Y h
    · cases hgX : get_output X (outDescIndex d) with
      | some o =>
        have : (get_output Y (outDescIndex d)).isSome = true := by
          rw [← h (outDescIndex d), hgX]; rfl
        rcases Option.isSome_iff_exists.mp this with ⟨o2, hgY⟩
        rw [freshOutList_cons_found _ _ _ _ _ hneg hgX,
            freshOutList_cons_found _ _ _ _ _ hneg hgY]
        exact ih so X Y h
      | none =>
        have hgY : get_output Y (outDescIndex d) = none := by
          have := h (outDescIndex d)
          rw [hgX] at this
          cases hY : get_output Y (outDescIndex d) with
          | none => rfl
          | some o2 => rw [hY] at this; cases this
        cases hso : so with
        | none => simp [freshOutList, hneg, hgX, hgY, hso]
        | some ser =>
          subst hso
          rw [freshOutList_cons_new _ _ _ _ ser hneg hgX rfl,
              freshOutList_cons_new _ _ _ _ ser hneg hgY rfl]
          congr 1
          refine ih (some ser) _ _ ?_
          intro j
          rw [get_output_append_single_isSome, get_output_append_single_isSome, h j]

/-! Mark-pass absorption: the mark-unavailable pass erases exactly the fields
the snapshot pass writes, so marking after updating equals marking alone. -/

theorem map_mark_setOutputState (xs : List Output) (i : Int) (v : Option Bool) :
    (setOutputState xs i v).map markOutputUnavailable = xs.map markOutputUnavailable := by
  induction xs with
  | nil => rfl
  | cons o rest ih =>
    simp only [setOutputState]
    split
    · simp [mark_outApply]
    · simp [ih]

theorem map_mark_applyOutputDescs (ds : List OutputDesc) :
    ∀ xs, (applyOutputDescs xs ds).map markOutputUnavailable =
      xs.map markOutputUnavailable := by
  induction ds with
  | nil => intro xs; rfl
  | cons d rest ih =>
    intro xs
    by_cases hneg : outDescIndex d < 0
    · rw [applyOutputDescs_cons_neg _ _ _ hneg]; exact ih xs
    · rw [applyOutputDescs_cons_pos _ _ _ hneg, ih, map_mark_setOutputState]

theorem map_mark_mark_out (xs : List Output) :
    (xs.map markOutputUnavailable).map markOutputUnavailable =
      xs.map markOutputUnavailable := by
  rw [List.map_map]
  exact List.map_congr_left (fun o _ => mark_mark_out o)

theorem map_mark_filter_out (xs : List Output) (p : Int → Bool) :
    (xs.filter (fun o => p o.index)).map markOutputUnavailable =
      (xs.map markOutputUnavailable).filter (fun o => p o.index) := by
  induction xs with
  | nil => rfl
  | cons o rest ih =>
    cases hp : p o.index with
    | true => simp [List.filter_cons, hp, markOutputUnavailable, ih]
    | false => simp [List.filter_cons, hp, markOutputUnavailable, ih]

/-- A successful output pass equals the pure update pass applied to the
retained list extended with the created outputs, pre-seeded in creation
order. -/
theorem outputsLoop_preseed (ds : List OutputDesc) :
    ∀ so outs seen created a b c,
      outputsLoop so outs seen created ds = .ok (a, b, c) →
      a = applyOutputDescs (outs ++ freshOutList so outs ds) ds := by
  induction ds with
  | nil =>
    intro so outs seen created a b c h
    rw [outputsLoop_nil] at h; cases h
    rw [freshOutList_nil, List.append_nil, applyOutputDescs_nil]
  | cons d rest ih =>
    intro so outs seen created a b c h
    by_cases hneg : outDescIndex d < 0
    · rw [outputsLoop_cons_neg _ _ _ _ _ _ hneg] at h
      rw [freshOutList_cons_neg _ _ _ _ hneg, applyOutputDescs_cons_neg _ _ _ hneg]
      exact ih _ _ _ _ _ _ _ h
    · cases hg : get_output outs (outDescIndex d) with
      | some o =>
        rw [outputsLoop_cons_found _ _ _ _ _ _ _ hneg hg] at h
        rw [freshOutList_cons_found _ _ _ _ _ hneg hg,
            applyOutputDescs_cons_pos _ _ _ hneg,
            setOutputState_append_left _ _ _ _ (by rw [hg]; rfl)]
        have hcongr : freshOutList so outs rest =
            freshOutList so
              (setOutputState outs (outDescIndex d) (convert_outputs_status d.status)) rest :=
          freshOutList_congr rest so _ _
            (fun j => (get_output_set_isSome outs (outDescIndex d) j
              (convert_outputs_status d.status)).symm)
        rw [hcongr]
        exact ih _ _ _ _ _ _ _ h
      | none =>
        cases hso : so with
        | none => rw [outputsLoop_cons_err _ _ _ _ _ _ hneg hg hso] at h; cases h
        | some ser =>
          subst hso
          rw [outputsLoop_cons_new _ _ _ _ _ _ ser hneg hg rfl] at h
          rw [freshOutList_cons_new _ _ _ _ ser hneg hg rfl,
              applyOutputDescs_cons_pos _ _ _ hneg]
          have hre : outs ++
              (outApply (Output.make (outDescIndex d) ser none) (convert_outputs_status d.status) ::
                freshOutList (some ser)
                  (outs ++ [outApply (Output.make (outDescIndex d) ser none) (convert_outputs_status d.status)]) rest) =
              (outs ++ [outApply (Output.make (outDescIndex d) ser none) (convert_outputs_status d.status)]) ++
                freshOutList (some ser)
                  (outs ++ [outApply (Output.make (outDescIndex d) ser none) (convert_outputs_status d.status)]) rest := by
            simp
          have hsome : (get_output
              (outs ++ [outApply (Output.make (outDescIndex d) ser none) (convert_outputs_status d.status)])
              (outDescIndex d)).isSome := by
            rw [get_output_append_single_self outs
              (outApply (Output.make (outDescIndex d) ser none) (convert_outputs_status d.status))
              (outDescIndex d) rfl hg]
            rfl
          rw [hre, setOutputState_append_left _ _ _ _ hsome,
              setOutputState_append_right _ _ _ _ hg]
          have hsingle : setOutputState
              [outApply (Output.make (outDescIndex d) ser none) (convert_outputs_status d.status)]
              (outDescIndex d) (convert_outputs_status d.status) =
              [outApply (Output.make (outDescIndex d) ser none) (convert_outputs_status d.status)] := by
            simp [setOutputState, outApply_outApply]
          rw [hsingle]
          exact ih _ _ _ _ _ _ _ h

/-- When every valid incoming index is already present, the loop creates
nothing: it returns the pure update pass on both the retained list and the
created accumulator. -/
theorem outputsLoop_nocreate (ds : List OutputDesc) :
    ∀ so outs seen created,
      (∀ i ∈ seenIdxOut ds, (get_output outs i).isSome) →
      outputsLoop so outs seen created ds =
        .ok (applyOutputDescs outs ds, seen ++ seenIdxOut ds, applyOutputDescs created ds) := by
  induction ds with
  | nil =>
    intro so outs seen created _
    rw [outputsLoop_nil, applyOutputDescs_nil, applyOutputDescs_nil, seenIdxOut_nil,
        List.append_nil]
  | cons d rest ih =>
    intro so outs seen created hp
    by_cases hneg : outDescIndex d < 0
    · rw [outputsLoop_cons_neg _ _ _ _ _ _ hneg, applyOutputDescs_cons_neg _ _ _ hneg,
          applyOutputDescs_cons_neg _ _ _ hneg, seenIdxOut_cons_neg _ _ hneg]
      exact ih _ _ _ _ (by rw [seenIdxOut_cons_neg _ _ hneg] at hp; exact hp)
    · have hmem : outDescIndex d ∈ seenIdxOut (d :: rest) := by
        rw [seenIdxOut_cons_pos _ _ hneg]; exact List.mem_cons_self _ _
      rcases Option.isSome_iff_exists.mp (hp _ hmem) with ⟨e0, hg⟩
      rw [outputsLoop_cons_found _ _ _ _ _ _ _ hneg hg,
          applyOutputDescs_cons_pos _ _ _ hneg, applyOutputDescs_cons_pos _ _ _ hneg,
          seenIdxOut_cons_pos _ _ hneg]
      have hp2 : ∀ i ∈ seenIdxOut rest,
          (get_output (setOutputState outs (outDescIndex d) (convert_outputs_status d.status)) i).isSome := by
        intro i hi
        rw [get_output_set_isSome]
        exact hp i (by rw [seenIdxOut_cons_pos _ _ hneg]; exact List.mem_cons_of_mem _ hi)
      rw [ih _ _ _ _ hp2]
      simp

/-! Commutation of the index-based prune filter with the update pass. -/

theorem setOutputState_cons_eq (o : Output) (rest : List Output) (i : Int) (v : Option Bool)
    (h : (o.index == i) = true) :
    setOutputState (o :: rest) i v = outApply o v :: rest := by
  simp [setOutputState, h]

theorem setOutputState_cons_ne (o : Output) (rest : List Output) (i : Int) (v : Option Bool)
    (h : (o.index == i) = false) :
    setOutputState (o :: rest) i v = o :: setOutputState rest i v := by
  simp [setOutputState, h]

theorem filter_setOutputState (xs : List Output) (p : Int → Bool) (i : Int) (v : Option Bool) :
    (setOutputState xs i v).filter (fun o => p o.index) =
      setOutputState (xs.filter (fun o => p o.index)) i v := by
  induction xs with
  | nil => rfl
  | cons o rest ih =>
    cases hoi : (o.index == i) with
    | true =>
      have ho : o.index = i := by simpa using hoi
      rw [setOutputState_cons_eq _ _ _ _ hoi]
      cases hp : p i with
      | true =>
        rw [@List.filter_cons_of_pos _ (fun w => p w.index) (outApply o v) rest
              (by show p (outApply o v).index = true; rw [outApply_index, ho]; exact hp),
            @List.filter_cons_of_pos _ (fun w => p w.index) o rest
              (by show p o.index = true; rw [ho]; exact hp),
            setOutputState_cons_eq _ _ _ _ hoi]
      | false =>
        rw [@List.filter_cons_of_neg _ (fun w => p w.index) (outApply o v) rest
              (by show ¬ p (outApply o v).index = true; rw [outApply_index, ho, hp]; simp),
            @List.filter_cons_of_neg _ (fun w => p w.index) o rest
              (by show ¬ p o.index = true; rw [ho, hp]; simp)]
        have hnone : get_output (rest.filter (fun o => p o.index)) i = none := by
          rw [get_output_filter rest p i, hp]
          simp
        exact (setOutputState_nomatch _ _ _ hnone).symm
    | false =>
      rw [setOutputState_cons_ne _ _ _ _ hoi]
      cases hp : p o.index with
      | true =>
        rw [@List.filter_cons_of_pos _ (fun w => p w.index) o (setOutputState rest i v) hp,
            @List.filter_cons_of_pos _ (fun w => p w.index) o rest hp,
            setOutputState_cons_ne _ _ _ _ hoi, ih]
      | false =>
        rw [@List.filter_cons_of_neg _ (fun w => p w.index) o (setOutputState rest i v)
              (by show ¬ p o.index = true; rw [hp]; simp),
            @List.filter_cons_of_neg _ (fun w => p w.index) o rest
              (by show ¬ p o.index = true; rw [hp]; simp)]
        exact ih

theorem filter_applyOutputDescs (ds : List OutputDesc) :
    ∀ xs (p : Int → Bool),
      (applyOutputDescs xs ds).filter (fun o => p o.index) =
        applyOutputDescs (xs.filter (fun o => p o.index)) ds := by
  induction ds with
  | nil => intro xs p; rfl
  | cons d rest ih =>
    intro xs p
    by_cases hneg : outDescIndex d < 0
    · rw [applyOutputDescs_cons_neg _ _ _ hneg, applyOutputDescs_cons_neg _ _ _ hneg]
      exact ih xs p
    · rw [applyOutputDescs_cons_pos _ _ _ hneg, applyOutputDescs_cons_pos _ _ _ hneg,
          ih _ p, filter_setOutputState]

theorem int_contains_iff (l : List Int) (a : Int) : l.contains a = true ↔ a ∈ l := by
  simp [List.contains]

theorem update_outputs_core_eq (so : Option String) (cur : List Output)
    (ds : List OutputDesc) (a : List Output) (b : List Int) (c : List Output)
    (hl : outputsLoop so (cur.map markOutputUnavailable) [] [] ds = .ok (a, b, c)) :
    update_outputs_core so cur ds =
      .ok (c, if 0 < b.length then a.filter (fun o => b.contains o.index) else a) := by
  unfold update_outputs_core
  rw [hl]

theorem update_outputs_core_err (so : Option String) (cur : List Output)
    (ds : List OutputDesc) (e : PyErr)
    (hl : outputsLoop so (cur.map markOutputUnavailable) [] [] ds = .error e) :
    update_outputs_core so cur ds = .error e := by
  unfold update_outputs_core
  rw [hl]

/-- Applying the same output descriptor list twice: the second pass creates
nothing and leaves the retained output list exactly as the first pass left
it. -/
theorem update_outputs_core_idem (so : Option String) (cur : List Output)
    (ds : List OutputDesc) (n cur1 : List Output)
    (h : update_outputs_core so cur ds = .ok (n, cur1)) :
    update_outputs_core so cur1 ds = .ok ([], cur1) := by
  by_cases hse : seenIdxOut ds = []
  · rw [update_outputs_core_eq so cur ds _ _ _
        (outputsLoop_no_valid ds hse so (cur.map markOutputUnavailable) [] []),
        if_neg (by simp)] at h
    cases h
    rw [update_outputs_core_eq so (cur.map markOutputUnavailable) ds _ _ _
        (outputsLoop_no_valid ds hse so ((cur.map markOutputUnavailable).map markOutputUnavailable) [] []),
        if_neg (by simp), map_mark_mark_out]
  · cases hl : outputsLoop so (cur.map markOutputUnavailable) [] [] ds with
    | error e => rw [update_outputs_core_err so cur ds e hl] at h; cases h
    | ok t =>
      obtain ⟨a, b, c⟩ := t
      rw [update_outputs_core_eq so cur ds _ _ _ hl] at h
      have hb : b = seenIdxOut ds := by
        have := outputsLoop_seen ds _ _ _ _ _ _ _ hl
        simpa using this
      subst hb
      have hlen : 0 < (seenIdxOut ds).length := List.length_pos.mpr hse
      rw [if_pos hlen] at h
      cases h
      -- first-pass characterisation and presence of every seen index
      have hpre := outputsLoop_preseed ds _ _ _ _ _ _ _ hl
      have hseenp := outputsLoop_seen_present ds _ _ _ _ _ _ _ hl
      have hpres2 : ∀ i ∈ seenIdxOut ds,
          (get_output
            ((a.filter (fun o => (seenIdxOut ds).contains o.index)).map markOutputUnavailable)
            i).isSome := by
        intro i hi
        rw [get_output_map_mark]
        have heq : get_output (a.filter (fun o => (seenIdxOut ds).contains o.index)) i =
            get_output a i := by
          rw [get_output_filter a (fun j => (seenIdxOut ds).contains j) i,
              if_pos ((int_contains_iff _ _).mpr hi)]
        rw [heq]
        have := hseenp i hi
        cases hgi : get_output a i with
        | none => rw [hgi] at this; cases this
        | some o => rfl
      have hrun2 := outputsLoop_nocreate ds so
        ((a.filter (fun o => (seenIdxOut ds).contains o.index)).map markOutputUnavailable)
        [] [] hpres2
      -- the second pure pass reproduces the pruned first-pass list
      have habs := (freshOutList_spec ds so (cur.map markOutputUnavailable)).1
      have hnod := (freshOutList_spec ds so (cur.map markOutputUnavailable)).2
      have hmarkF : ∀ z ∈ (freshOutList so (cur.map markOutputUnavailable) ds).map markOutputUnavailable,
          get_output (cur.map markOutputUnavailable) z.index = none := by
        intro z hz
        rcases List.mem_map.mp hz with ⟨w, hw, hwz⟩
        have := habs w hw
        rw [← hwz]
        exact this
      have hnodF : (((freshOutList so (cur.map markOutputUnavailable) ds).map markOutputUnavailable).map
          (fun z => z.index)).Nodup := by
        rw [List.map_map]
        have heq : ((freshOutList so (cur.map markOutputUnavailable) ds).map
            (fun z => ((fun w => w.index) ∘ markOutputUnavailable) z)) =
            ((freshOutList so (cur.map markOutputUnavailable) ds).map (fun z => z.index)) :=
          List.map_congr_left (fun z _ => rfl)
        rw [heq]
        exact hnod
      have hmm : a.map markOutputUnavailable =
          cur.map markOutputUnavailable ++
            (freshOutList so (cur.map markOutputUnavailable) ds).map markOutputUnavailable := by
        rw [hpre, map_mark_applyOutputDescs, List.map_append, map_mark_mark_out]
      have hsame : applyOutputDescs (a.map markOutputUnavailable) ds = a := by
        rw [hmm, applyOutputDescs_append_block ds _ _ hmarkF hnodF]
        conv_rhs => rw [hpre, applyOutputDescs_append_block ds _ _ habs hnod]
        congr 1
        rw [List.map_map]
        refine List.map_congr_left ?_
        intro z hz
        have hzseen : z.index ∈ seenIdxOut ds := freshOutList_mem_seen ds _ _ _ hz
        exact outFinal_mark_of_seen ds z ((mem_seenIdxOut_iff z.index ds).mp hzseen)
      have hfa : applyOutputDescs
          ((a.filter (fun o => (seenIdxOut ds).contains o.index)).map markOutputUnavailable) ds =
          a.filter (fun o => (seenIdxOut ds).contains o.index) := by
        rw [map_mark_filter_out a (fun j => (seenIdxOut ds).contains j),
            ← filter_applyOutputDescs ds _ (fun j => (seenIdxOut ds).contains j), hsame]
      -- assemble the second call
      rw [hfa, applyOutputDescs_nil_list] at hrun2
      rw [update_outputs_core_eq so _ ds _ _ _ hrun2]
      simp only [List.nil_append]
      rw [if_pos hlen]
      have hidem : (a.filter (fun o => (seenIdxOut ds).contains o.index)).filter
          (fun o => (seenIdxOut ds).contains o.index) =
          a.filter (fun o => (seenIdxOut ds).contains o.index) :=
        List.filter_eq_self.mpr (fun o ho =>
          @List.of_mem_filter _ (fun w => (seenIdxOut ds).contains w.index) o a ho)
      rw [hidem]

/-! Elementary lemmas about lookup and in-place update on zone lists,
mirroring the output lemmas above. -/

theorem get_zone_nil (i : Int) : get_zone [] i = none := rfl

theorem get_zone_cons (z : Zone) (rest : List Zone) (i : Int) :
    get_zone (z :: rest) i = if z.index == i then some z else get_zone rest i := by
  cases h : (z.index == i) <;> simp [get_zone, List.find?, h]

theorem zoneApply_index (z : Zone) (nm : Option String) (st : Option String) (pt : Int) :
    (zoneApply z nm st pt).index = z.index := rfl

theorem setZoneFields_nil (i : Int) (nm : Option String) (st : Option String) (pt : Int) :
    setZoneFields [] i nm st pt = [] := rfl

theorem setZoneFields_cons_eq (z : Zone) (rest : List Zone) (i : Int) (nm : Option String)
    (st : Option String) (pt : Int) (h : (z.index == i) = true) :
    setZoneFields (z :: rest) i nm st pt = zoneApply z nm st pt :: rest := by
  simp [setZoneFields, h]

theorem setZoneFields_cons_ne (z : Zone) (rest : List Zone) (i : Int) (nm : Option String)
    (st : Option String) (pt : Int) (h : (z.index == i) = false) :
    setZoneFields (z :: rest) i nm st pt = z :: setZoneFields rest i nm st pt := by
  simp [setZoneFields, h]

theorem setZoneFields_index_map (xs : List Zone) (i : Int) (nm : Option String)
    (st : Option String) (pt : Int) :
    (setZoneFields xs i nm st pt).map (fun z => z.index) = xs.map (fun z => z.index) := by
  induction xs with
  | nil => rfl
  | cons z rest ih =>
    simp only [setZoneFields]
    split
    · simp [zoneApply]
    · simp [ih]

theorem get_zone_set_self (xs : List Zone) (i : Int) (nm : Option String)
    (st : Option String) (pt : Int) :
    get_zone (setZoneFields xs i nm st pt) i =
      (get_zone xs i).map (fun z => zoneApply z nm st pt) := by
  induction xs with
  | nil => rfl
  | cons z rest ih =>
    cases h : (z.index == i) with
    | true =>
      rw [setZoneFields_cons_eq _ _ _ _ _ _ h]
      simp [get_zone_cons, zoneApply, h]
    | false =>
      rw [setZoneFields_cons_ne _ _ _ _ _ _ h]
      simp [get_zone_cons, h, ih]

theorem get_zone_set_ne (xs : List Zone) (i j : Int) (nm : Option String)
    (st : Option String) (pt : Int) (hij : j ≠ i) :
    get_zone (setZoneFields xs i nm st pt) j = get_zone xs j := by
  induction xs with
  | nil => rfl
  | cons z rest ih =>
    cases h : (z.index == i) with
    | true =>
      have hzi : z.index = i := by simpa using h
      have hzj : (z.index == j) = false := by
        rw [hzi]; exact beq_eq_false_iff_ne.mpr (Ne.symm hij)
      rw [setZoneFields_cons_eq _ _ _ _ _ _ h]
      simp [get_zone_cons, zoneApply, hzj]
    | false =>
      rw [setZoneFields_cons_ne _ _ _ _ _ _ h]
      simp [get_zone_cons, h, ih]

theorem setZoneFields_nomatch (xs : List Zone) (i : Int) (nm : Option String)
    (st : Option String) (pt : Int) (h : get_zone xs i = none) :
    setZoneFields xs i nm st pt = xs := by
  induction xs with
  | nil => rfl
  | cons z rest ih =>
    rw [get_zone_cons] at h
    cases hz : (z.index == i) with
    | true => rw [hz] at h; simp at h
    | false =>
      rw [hz] at h; simp at h
      rw [setZoneFields_cons_ne _ _ _ _ _ _ hz, ih h]

theorem get_zone_append (xs ys : List Zone) (i : Int) :
    get_zone (xs ++ ys) i =
      match get_zone xs i with
      | some z => some z
      | none => get_zone ys i := by
  induction xs with
  | nil => simp [get_zone]
  | cons z rest ih =>
    cases h : (z.index == i) with
    | true => simp [get_zone_cons, h, List.cons_append]
    | false => simp [get_zone_cons, h, List.cons_append, ih]

theorem get_zone_append_single_ne (xs : List Zone) (z : Zone) (i : Int)
    (h : z.index ≠ i) : get_zone (xs ++ [z]) i = get_zone xs i := by
  rw [get_zone_append]
  cases hx : get_zone xs i with
  | some o => rfl
  | none => simp [get_zone_cons, beq_eq_false_iff_ne.mpr h, get_zone_nil]

theorem get_zone_append_single_self (xs : List Zone) (z : Zone) (i : Int)
    (hz : z.index = i) (hx : get_zone xs i = none) :
    get_zone (xs ++ [z]) i = some z := by
  rw [get_zone_append, hx]
  simp [get_zone_cons, hz]

theorem get_zone_append_none_left (xs ys : List Zone) (i : Int)
    (h : get_zone (xs ++ ys) i = none) : get_zone xs i = none := by
  rw [get_zone_append] at h
  cases hx : get_zone xs i with
  | none => rfl
  | some o => rw [hx] at h; cases h

theorem get_zone_append_single_isSome (xs : List Zone) (z : Zone) (j : Int) :
    (get_zone (xs ++ [z]) j).isSome = ((get_zone xs j).isSome || (z.index == j)) := by
  rw [get_zone_append]
  cases hx : get_zone xs j with
  | some o => rfl
  | none =>
    cases hz : (z.index == j) with
    | true => simp [get_zone_cons, hz]
    | false => simp [get_zone_cons, hz, get_zone_nil]

theorem get_zone_set_isSome (xs : List Zone) (i j : Int) (nm : Option String)
    (st : Option String) (pt : Int) :
    (get_zone (setZoneFields xs i nm st pt) j).isSome = (get_zone xs j).isSome := by
  by_cases hji : j = i
  · subst hji; rw [get_zone_set_self]; cases get_zone xs j <;> rfl
  · rw [get_zone_set_ne _ _ _ _ _ _ hji]

theorem get_zone_map_mark (xs : List Zone) (i : Int) :
    get_zone (xs.map markZoneUnavailable) i =
      (get_zone xs i).map markZoneUnavailable := by
  induction xs with
  | nil => rfl
  | cons z rest ih =>
    cases h : (z.index == i) with
    | true => simp [get_zone_cons, markZoneUnavailable, h]
    | false => simp [get_zone_cons, markZoneUnavailable, h, ih]

theorem get_zone_filter (xs : List Zone) (p : Int → Bool) (i : Int) :
    get_zone (xs.filter (fun z => p z.index)) i =
      if p i then get_zone xs i else none := by
  induction xs with
  | nil => simp [get_zone]
  | cons z rest ih =>
    cases hzi : (z.index == i) with
    | true =>
      have hz : z.index = i := by simpa using hzi
      cases hp : p i with
      | true => simp [List.filter_cons, hz, hp, get_zone_cons]
      | false => simp [List.filter_cons, hz, hp, get_zone_cons, ih]
    | false =>
      cases hp : p z.index with
      | true => simp [List.filter_cons, hp, get_zone_cons, hzi, ih]
      | false => simp [List.filter_cons, hp, get_zone_cons, hzi, ih]

theorem get_zone_eq_none (xs : List Zone) (i : Int) :
    get_zone xs i = none ↔ ∀ z ∈ xs, z.index ≠ i := by
  simp [get_zone, List.find?_eq_none]

theorem get_zone_mem (xs : List Zone) (i : Int) (z : Zone)
    (h : get_zone xs i = some z) : z ∈ xs ∧ z.index = i := by
  refine ⟨List.mem_of_find?_eq_some h, ?_⟩
  simpa using List.find?_some h

theorem zoneApply_zoneApply (z : Zone) (nm nm2 : Option String) (st st2 : Option String)
    (pt pt2 : Int) :
    zoneApply (zoneApply z nm st pt) nm2 st2 pt2 = zoneApply z nm2 st2 pt2 := rfl

theorem zoneApply_mark (z : Zone) (nm : Option String) (st : Option String) (pt : Int) :
    zoneApply (markZoneUnavailable z) nm st pt = zoneApply z nm st pt := rfl

theorem mark_mark_zone (z : Zone) :
    markZoneUnavailable (markZoneUnavailable z) = markZoneUnavailable z := rfl

theorem markZoneUnavailable_index (z : Zone) :
    (markZoneUnavailable z).index = z.index := rfl

theorem setZoneFields_append_right (xs ys : List Zone) (i : Int) (nm : Option String)
    (st : Option String) (pt : Int) (h : get_zone xs i = none) :
    setZoneFields (xs ++ ys) i nm st pt = xs ++ setZoneFields ys i nm st pt := by
  induction xs with
  | nil => rfl
  | cons z rest ih =>
    rw [get_zone_cons] at h
    cases hz : (z.index == i) with
    | true => rw [hz] at h; simp at h
    | false =>
      rw [hz] at h; simp at h
      rw [List.cons_append, setZoneFields_cons_ne _ _ _ _ _ _ hz, ih h, List.cons_append]

theorem setZoneFields_append_left (xs ys : List Zone) (i : Int) (nm : Option String)
    (st : Option String) (pt : Int) (h : (get_zone xs i).isSome) :
    setZoneFields (xs ++ ys) i nm st pt = setZoneFields xs i nm st pt ++ ys := by
  induction xs with
  | nil => simp [get_zone] at h
  | cons z rest ih =>
    rw [get_zone_cons] at h
    cases hz : (z.index == i) with
    | true =>
      rw [List.cons_append, setZoneFields_cons_eq _ _ _ _ _ _ hz,
          setZoneFields_cons_eq _ _ _ _ _ _ hz, List.cons_append]
    | false =>
      rw [hz] at h; simp at h
      rw [List.cons_append, setZoneFields_cons_ne _ _ _ _ _ _ hz, ih h,
          setZoneFields_cons_ne _ _ _ _ _ _ hz, List.cons_append]

/-! Seen-index and last-descriptor lemmas for zone passes. -/

theorem seenIdxZone_nil : seenIdxZone [] = [] := rfl

theorem seenIdxZone_cons_neg (d : ZoneDesc) (rest : List ZoneDesc)
    (h : zoneDescIndex d < 0) : seenIdxZone (d :: rest) = seenIdxZone rest := by
  simp [seenIdxZone, List.filterMap_cons, h]

theorem seenIdxZone_cons_pos (d : ZoneDesc) (rest : List ZoneDesc)
    (h : ¬ zoneDescIndex d < 0) :
    seenIdxZone (d :: rest) = zoneDescIndex d :: seenIdxZone rest := by
  simp [seenIdxZone, List.filterMap_cons, h]

theorem lastDescZone_nil (i : Int) : lastDescZone i [] = none := rfl

theorem lastDescZone_cons (i : Int) (d : ZoneDesc) (rest : List ZoneDesc) :
    lastDescZone i (d :: rest) =
      match lastDescZone i rest with
      | some e => some e
      | none => if 0 ≤ zoneDescIndex d ∧ zoneDescIndex d = i then some d else none := rfl

theorem lastDescZone_cons_nocontrib (i : Int) (d : ZoneDesc) (rest : List ZoneDesc)
    (h : ¬ (0 ≤ zoneDescIndex d ∧ zoneDescIndex d = i)) :
    lastDescZone i (d :: rest) = lastDescZone i rest := by
  rw [lastDescZone_cons]
  cases hl : lastDescZone i rest <;> simp [h]

theorem mem_seenIdxZone_iff (i : Int) (ds : List ZoneDesc) :
    i ∈ seenIdxZone ds ↔ (lastDescZone i ds).isSome := by
  induction ds with
  | nil => simp [seenIdxZone_nil, lastDescZone_nil]
  | cons d rest ih =>
    by_cases hneg : zoneDescIndex d < 0
    · rw [seenIdxZone_cons_neg _ _ hneg,
          lastDescZone_cons_nocontrib _ _ _ (by intro hc; omega)]
      exact ih
    · rw [seenIdxZone_cons_pos _ _ hneg, lastDescZone_cons]
      cases hl : lastDescZone i rest with
      | some e => simp [hl] at ih; simp [ih]
      | none =>
        simp [hl] at ih
        by_cases hii : zoneDescIndex d = i
        · simp [hii, ih, hneg]
          omega
        · simp [ih, Ne.symm hii, hii]

/-! Unfolding equations for the zone descriptor loop. -/

theorem zonesLoop_nil (so : Option String) (zs : List Zone) (seen : List Int)
    (created : List Zone) :
    zonesLoop so zs seen created [] = .ok (zs, seen, created) := rfl

theorem zonesLoop_cons_neg (so : Option String) (zs : List Zone) (seen : List Int)
    (created : List Zone) (d : ZoneDesc) (rest : List ZoneDesc)
    (h : zoneDescIndex d < 0) :
    zonesLoop so zs seen created (d :: rest) = zonesLoop so zs seen created rest := by
  simp [zonesLoop, h]

theorem zonesLoop_cons_found (so : Option String) (zs : List Zone) (seen : List Int)
    (created : List Zone) (d : ZoneDesc) (rest : List ZoneDesc) (z : Zone)
    (h : ¬ zoneDescIndex d < 0) (hg : get_zone zs (zoneDescIndex d) = some z) :
    zonesLoop so zs seen created (d :: rest) =
      zonesLoop so
        (setZoneFields zs (zoneDescIndex d) d.name (convert_zone_status d.status) (d.pass_type.getD 2))
        (seen ++ [zoneDescIndex d])
        (setZoneFields created (zoneDescIndex d) d.name (convert_zone_status d.status) (d.pass_type.getD 2))
        rest := by
  simp [zonesLoop, h, hg]

theorem zonesLoop_cons_new (so : Option String) (zs : List Zone) (seen : List Int)
    (created : List Zone) (d : ZoneDesc) (rest : List ZoneDesc) (ser : String)
    (h : ¬ zoneDescIndex d < 0) (hg : get_zone zs (zoneDescIndex d) = none)
    (hs : so = some ser) :
    zonesLoop so zs seen created (d :: rest) =
      zonesLoop so
        (zs ++ [zoneApply (Zone.make (zoneDescIndex d) ser none) d.name (convert_zone_status d.status) (d.pass_type.getD 2)])
        (seen ++ [zoneDescIndex d])
        (created ++ [zoneApply (Zone.make (zoneDescIndex d) ser none) d.name (convert_zone_status d.status) (d.pass_type.getD 2)])
        rest := by
  simp [zonesLoop, h, hg, hs]

theorem zonesLoop_cons_err (so : Option String) (zs : List Zone) (seen : List Int)
    (created : List Zone) (d : ZoneDesc) (rest : List ZoneDesc)
    (h : ¬ zoneDescIndex d < 0) (hg : get_zone zs (zoneDescIndex d) = none)
    (hs : so = none) :
    zonesLoop so zs seen created (d :: rest) = .error .keyError := by
  simp [zonesLoop, h, hg, hs]

/-! Behavioural lemmas for the zone descriptor loop. -/

theorem zonesLoop_seen (ds : List ZoneDesc) :
    ∀ so zs seen created a b c,
      zonesLoop so zs seen created ds = .ok (a, b, c) → b = seen ++ seenIdxZone ds := by
  induction ds with
  | nil =>
    intro so zs seen created a b c h
    rw [zonesLoop_nil] at h
    cases h
    simp [seenIdxZone_nil]
  | cons d rest ih =>
    intro so zs seen created a b c h
    by_cases hneg : zoneDescIndex d < 0
    · rw [zonesLoop_cons_neg _ _ _ _ _ _ hneg] at h
      rw [seenIdxZone_cons_neg _ _ hneg]
      exact ih _ _ _ _ _ _ _ h
    · cases hg : get_zone zs (zoneDescIndex d) with
      | some z =>
        rw [zonesLoop_cons_found _ _ _ _ _ _ _ hneg hg] at h
        rw [seenIdxZone_cons_pos _ _ hneg, ih _ _ _ _ _ _ _ h]
        simp
      | none =>
        cases hso : so with
        | none => rw [zonesLoop_cons_err _ _ _ _ _ _ hneg hg hso] at h; cases h
        | some ser =>
          rw [zonesLoop_cons_new _ _ _ _ _ _ _ hneg hg hso] at h
          rw [seenIdxZone_cons_pos _ _ hneg, ih _ _ _ _ _ _ _ h]
          simp

theorem zonesLoop_no_valid (ds : List ZoneDesc) (h : seenIdxZone ds = []) :
    ∀ so zs seen created,
      zonesLoop so zs seen created ds = .ok (zs, seen, created) := by
  induction ds with
  | nil => intro so zs seen created; exact zonesLoop_nil so zs seen created
  | cons d rest ih =>
    intro so zs seen created
    by_cases hneg : zoneDescIndex d < 0
    · rw [seenIdxZone_cons_neg _ _ hneg] at h
      rw [zonesLoop_cons_neg _ _ _ _ _ _ hneg]
      exact ih h _ _ _ _
    · rw [seenIdxZone_cons_pos _ _ hneg] at h
      cases h

theorem zonesLoop_total (ds : List ZoneDesc) (ser : String) :
    ∀ zs seen created, ∃ r,
      zonesLoop (some ser) zs seen created ds = .ok r := by
  induction ds with
  | nil => intro zs seen created; exact ⟨_, zonesLoop_nil _ zs seen created⟩
  | cons d rest ih =>
    intro zs seen created
    by_cases hneg : zoneDescIndex d < 0
    · rw [zonesLoop_cons_neg _ _ _ _ _ _ hneg]; exact ih _ _ _
    · cases hg : get_zone zs (zoneDescIndex d) with
      | some z => rw [zonesLoop_cons_found _ _ _ _ _ _ _ hneg hg]; exact ih _ _ _
      | none => rw [zonesLoop_cons_new _ _ _ _ _ _ ser hneg hg rfl]; exact ih _ _ _

theorem zonesLoop_presence (ds : List ZoneDesc) :
    ∀ so zs seen created a b c,
      zonesLoop so zs seen created ds = .ok (a, b, c) →
      ∀ i, (get_zone zs i).isSome → (get_zone a i).isSome := by
  induction ds with
  | nil =>
    intro so zs seen created a b c h i hi
    rw [zonesLoop_nil] at h; cases h; exact hi
  | cons d rest ih =>
    intro so zs seen created a b c h i hi
    by_cases hneg : zoneDescIndex d < 0
    · rw [zonesLoop_cons_neg _ _ _ _ _ _ hneg] at h
      exact ih _ _ _ _ _ _ _ h i hi
    · cases hg : get_zone zs (zoneDescIndex d) with
      | some z =>
        rw [zonesLoop_cons_found _ _ _ _ _ _ _ hneg hg] at h
        refine ih _ _ _ _ _ _ _ h i ?_
        rw [get_zone_set_isSome]; exact hi
      | none =>
        cases hso : so with
        | none => rw [zonesLoop_cons_err _ _ _ _ _ _ hneg hg hso] at h; cases h
        | some ser =>
          rw [zonesLoop_cons_new _ _ _ _ _ _ _ hneg hg hso] at h
          refine ih _ _ _ _ _ _ _ h i ?_
          by_cases hii : i = zoneDescIndex d
          · subst hii; rw [hg] at hi; cases hi
          · rw [get_zone_append_single_ne _ _ _ (by simpa using Ne.symm hii)]
            exact hi

theorem zonesLoop_seen_present (ds : List ZoneDesc) :
    ∀ so zs seen created a b c,
      zonesLoop so zs seen created ds = .ok (a, b, c) →
      ∀ i, i ∈ seenIdxZone ds → (get_zone a i).isSome := by
  induction ds with
  | nil => intro so zs seen created a b c h i hi; simp [seenIdxZone_nil] at hi
  | cons d rest ih =>
    intro so zs seen created a b c h i hi
    by_cases hneg : zoneDescIndex d < 0
    · rw [seenIdxZone_cons_neg _ _ hneg] at hi
      rw [zonesLoop_cons_neg _ _ _ _ _ _ hneg] at h
      exact ih _ _ _ _ _ _ _ h i hi
    · rw [seenIdxZone_cons_pos _ _ hneg] at hi
      cases hg : get_zone zs (zoneDescIndex d) with
      | some z =>
        rw [zonesLoop_cons_found _ _ _ _ _ _ _ hneg hg] at h
        rcases List.mem_cons.mp hi with hii | hmem
        · subst hii
          refine zonesLoop_presence rest _ _ _ _ _ _ _ h (zoneDescIndex d) ?_
          rw [get_zone_set_isSome, hg]; rfl
        · exact ih _ _ _ _ _ _ _ h i hmem
      | none =>
        cases hso : so with
        | none => rw [zonesLoop_cons_err _ _ _ _ _ _ hneg hg hso] at h; cases h
        | some ser =>
          rw [zonesLoop_cons_new _ _ _ _ _ _ _ hneg hg hso] at h
          rcases List.mem_cons.mp hi with hii | hmem
          · subst hii
            have hz : get_zone
                (zs ++ [zoneApply (Zone.make (zoneDescIndex d) ser none) d.name (convert_zone_status d.status) (d.pass_type.getD 2)])
                (zoneDescIndex d) =
                some (zoneApply (Zone.make (zoneDescIndex d) ser none) d.name (convert_zone_status d.status) (d.pass_type.getD 2)) :=
              get_zone_append_single_self _ _ _ rfl hg
            refine zonesLoop_presence rest _ _ _ _ _ _ _ h (zoneDescIndex d) ?_
            rw [hz]; rfl
          · exact ih _ _ _ _ _ _ _ h i hmem

theorem zonesLoop_untouched (ds : List ZoneDesc) :
    ∀ so zs seen created a b c,
      zonesLoop so zs seen created ds = .ok (a, b, c) →
      ∀ i, i ∉ seenIdxZone ds → get_zone a i = get_zone zs i := by
  induction ds with
  | nil => intro so zs seen created a b c h i _; rw [zonesLoop_nil] at h; cases h; rfl
  | cons d rest ih =>
    intro so zs seen created a b c h i hi
    by_cases hneg : zoneDescIndex d < 0
    · rw [seenIdxZone_cons_neg _ _ hneg] at hi
      rw [zonesLoop_cons_neg _ _ _ _ _ _ hneg] at h
      exact ih _ _ _ _ _ _ _ h i hi
    · rw [seenIdxZone_cons_pos _ _ hneg] at hi
      have hii : i ≠ zoneDescIndex d := fun he => hi (by rw [he]; exact List.mem_cons_self _ _)
      have hmem : i ∉ seenIdxZone rest := fun hm => hi (List.mem_cons_of_mem _ hm)
      cases hg : get_zone zs (zoneDescIndex d) with
      | some z =>
        rw [zonesLoop_cons_found _ _ _ _ _ _ _ hneg hg] at h
        rw [ih _ _ _ _ _ _ _ h i hmem, get_zone_set_ne _ _ _ _ _ _ hii]
      | none =>
        cases hso : so with
        | none => rw [zonesLoop_cons_err _ _ _ _ _ _ hneg hg hso] at h; cases h
        | some ser =>
          rw [zonesLoop_cons_new _ _ _ _ _ _ _ hneg hg hso] at h
          rw [ih _ _ _ _ _ _ _ h i hmem,
              get_zone_append_single_ne _ _ _ (by simpa using Ne.symm hii)]

/-- Last descriptor wins for zones: the first retained zone with a seen index
carries exactly the name, normalized status and pass type assigned from the
last descriptor of that index. -/
theorem zonesLoop_last_wins (ds : List ZoneDesc) :
    ∀ so zs seen created a b c,
      zonesLoop so zs seen created ds = .ok (a, b, c) →
      ∀ i d, lastDescZone i ds = some d →
        (∀ e, get_zone zs i = some e →
            get_zone a i = some (zoneApply e d.name (convert_zone_status d.status) (d.pass_type.getD 2))) ∧
        (get_zone zs i = none →
            ∃ ser, so = some ser ∧
              get_zone a i =
                some (zoneApply (Zone.make i ser none) d.name (convert_zone_status d.status) (d.pass_type.getD 2))) := by
  induction ds with
  | nil => intro so zs seen created a b c h i d hd; rw [lastDescZone_nil] at hd; cases hd
  | cons d0 rest ih =>
    intro so zs seen created a b c h i d hd
    by_cases hneg : zoneDescIndex d0 < 0
    · rw [lastDescZone_cons_nocontrib _ _ _ (by intro hc; omega)] at hd
      rw [zonesLoop_cons_neg _ _ _ _ _ _ hneg] at h
      exact ih _ _ _ _ _ _ _ h i d hd
    · by_cases hii : zoneDescIndex d0 = i
      · cases hg : get_zone zs (zoneDescIndex d0) with
        | some e0 =>
          rw [zonesLoop_cons_found _ _ _ _ _ _ _ hneg hg] at h
          have hset : get_zone
              (setZoneFields zs (zoneDescIndex d0) d0.name (convert_zone_status d0.status) (d0.pass_type.getD 2)) i =
              some (zoneApply e0 d0.name (convert_zone_status d0.status) (d0.pass_type.getD 2)) := by
            rw [← hii, get_zone_set_self, hg]; rfl
          cases hl : lastDescZone i rest with
          | none =>
            have hd0 : d = d0 := by
              rw [lastDescZone_cons, hl, if_pos ⟨by omega, hii⟩] at hd
              exact (Option.some_inj.mp hd).symm
            have hnr : i ∉ seenIdxZone rest := by
              rw [mem_seenIdxZone_iff, hl]; simp
            have hu := zonesLoop_untouched rest _ _ _ _ _ _ _ h i hnr
            constructor
            · intro e he
              have he0 : e = e0 := by
                rw [← hii, hg] at he; exact Option.some_inj.mp he.symm
              rw [hu, hset, hd0, he0]
            · intro hnone; rw [← hii, hg] at hnone; cases hnone
          | some dl =>
            have hdl : d = dl := by
              rw [lastDescZone_cons, hl] at hd; exact (Option.some_inj.mp hd).symm
            have ihh := ih _ _ _ _ _ _ _ h i d (by rw [hl, hdl])
            constructor
            · intro e he
              have he0 : e = e0 := by
                rw [← hii, hg] at he; exact Option.some_inj.mp he.symm
              rw [ihh.1 _ hset, zoneApply_zoneApply, he0]
            · intro hnone; rw [← hii, hg] at hnone; cases hnone
        | none =>
          cases hso : so with
          | none => rw [zonesLoop_cons_err _ _ _ _ _ _ hneg hg hso] at h; cases h
          | some ser =>
            subst hso
            rw [zonesLoop_cons_new _ _ _ _ _ _ ser hneg hg rfl] at h
            have hzin : get_zone
                (zs ++ [zoneApply (Zone.make (zoneDescIndex d0) ser none) d0.name (convert_zone_status d0.status) (d0.pass_type.getD 2)]) i =
                some (zoneApply (Zone.make (zoneDescIndex d0) ser none) d0.name (convert_zone_status d0.status) (d0.pass_type.getD 2)) := by
              rw [← hii]; exact get_zone_append_single_self _ _ _ rfl hg
            cases hl : lastDescZone i rest with
            | none =>
              have hd0 : d = d0 := by
                rw [lastDescZone_cons, hl, if_pos ⟨by omega, hii⟩] at hd
                exact (Option.some_inj.mp hd).symm
              have hnr : i ∉ seenIdxZone rest := by
                rw [mem_seenIdxZone_iff, hl]; simp
              have hu := zonesLoop_untouched rest _ _ _ _ _ _ _ h i hnr
              constructor
              · intro e he; rw [← hii, hg] at he; cases he
              · intro _
                refine ⟨ser, rfl, ?_⟩
                rw [hu, hzin, hd0, hii]
            | some dl =>
              have hdl : d = dl := by
                rw [lastDescZone_cons, hl] at hd; exact (Option.some_inj.mp hd).symm
              have ihh := ih _ _ _ _ _ _ _ h i d (by rw [hl, hdl])
              constructor
              · intro e he; rw [← hii, hg] at he; cases he
              · intro _
                refine ⟨ser, rfl, ?_⟩
                rw [ihh.1 _ hzin, zoneApply_zoneApply, hii]
      · rw [lastDescZone_cons_nocontrib _ _ _ (fun hc => hii hc.2)] at hd
        cases hg : get_zone zs (zoneDescIndex d0) with
        | some e0 =>
          rw [zonesLoop_cons_found _ _ _ _ _ _ _ hneg hg] at h
          have ihh := ih _ _ _ _ _ _ _ h i d hd
          have hpres : get_zone
              (setZoneFields zs (zoneDescIndex d0) d0.name (convert_zone_status d0.status) (d0.pass_type.getD 2)) i =
              get_zone zs i :=
            get_zone_set_ne _ _ _ _ _ _ (Ne.symm hii)
          constructor
          · intro e he; exact ihh.1 e (by rw [hpres]; exact he)
          · intro hn; exact ihh.2 (by rw [hpres]; exact hn)
        | none =>
          cases hso : so with
          | none => rw [zonesLoop_cons_err _ _ _ _ _ _ hneg hg hso] at h; cases h
          | some ser =>
            subst hso
            rw [zonesLoop_cons_new _ _ _ _ _ _ ser hneg hg rfl] at h
            have ihh := ih _ _ _ _ _ _ _ h i d hd
            have hpres : get_zone
                (zs ++ [zoneApply (Zone.make (zoneDescIndex d0) ser none) d0.name (convert_zone_status d0.status) (d0.pass_type.getD 2)]) i =
                get_zone zs i :=
              get_zone_append_single_ne _ _ _ hii
            constructor
            · intro e he; exact ihh.1 e (by rw [hpres]; exact he)
            · intro hn; exact ihh.2 (by rw [hpres]; exact hn)

/-! Lemmas about the pure update part of a zone pass. -/

theorem applyZoneDescs_nil (zs : List Zone) : applyZoneDescs zs [] = zs := rfl

theorem applyZoneDescs_cons_neg (zs : List Zone) (d : ZoneDesc)
    (rest : List ZoneDesc) (h : zoneDescIndex d < 0) :
    applyZoneDescs zs (d :: rest) = applyZoneDescs zs rest := by
  simp [applyZoneDescs, h]

theorem applyZoneDescs_cons_pos (zs : List Zone) (d : ZoneDesc)
    (rest : List ZoneDesc) (h : ¬ zoneDescIndex d < 0) :
    applyZoneDescs zs (d :: rest) =
      applyZoneDescs
        (setZoneFields zs (zoneDescIndex d) d.name (convert_zone_status d.status)
          (d.pass_type.getD 2)) rest := by
  simp [applyZoneDescs, h]

theorem applyZoneDescs_nil_list (ds : List ZoneDesc) : applyZoneDescs [] ds = [] := by
  induction ds with
  | nil => rfl
  | cons d rest ih =>
    by_cases hneg : zoneDescIndex d < 0
    · rw [applyZoneDescs_cons_neg _ _ _ hneg]; exact ih
    · rw [applyZoneDescs_cons_pos _ _ _ hneg, setZoneFields_nil]; exact ih

theorem zoneFinal_nil (z : Zone) : zoneFinal [] z = z := rfl

theorem zoneFinal_cons_nocontrib (d : ZoneDesc) (rest : List ZoneDesc) (z : Zone)
    (h : ¬ (0 ≤ zoneDescIndex d ∧ zoneDescIndex d = z.index)) :
    zoneFinal (d :: rest) z = zoneFinal rest z := by
  unfold zoneFinal
  rw [lastDescZone_cons_nocontrib _ _ _ h]

theorem zoneFinal_index (ds : List ZoneDesc) (z : Zone) : (zoneFinal ds z).index = z.index := by
  unfold zoneFinal
  cases lastDescZone z.index ds <;> rfl

theorem zoneFinal_step (d : ZoneDesc) (rest : List ZoneDesc) (z : Zone)
    (hge : ¬ zoneDescIndex d < 0) (hzi : zoneDescIndex d = z.index) :
    zoneFinal rest (zoneApply z d.name (convert_zone_status d.status) (d.pass_type.getD 2)) =
      zoneFinal (d :: rest) z := by
  unfold zoneFinal
  rw [show (zoneApply z d.name (convert_zone_status d.status) (d.pass_type.getD 2)).index = z.index from rfl,
      lastDescZone_cons]
  cases hl : lastDescZone z.index rest with
  | some dl => rfl
  | none =>
    have hcond : 0 ≤ zoneDescIndex d ∧ zoneDescIndex d = z.index := ⟨by omega, hzi⟩
    rw [if_pos hcond]

theorem zoneFinal_mark_restore (ds : List ZoneDesc) (x : Zone)
    (hx : markZoneUnavailable x = x ∨ (lastDescZone x.index ds).isSome) :
    zoneFinal ds (markZoneUnavailable (zoneFinal ds x)) = zoneFinal ds x := by
  cases hl : lastDescZone x.index ds with
  | some d =>
    have h1 : zoneFinal ds x =
        zoneApply x d.name (convert_zone_status d.status) (d.pass_type.getD 2) := by
      unfold zoneFinal; rw [hl]
    rw [h1]
    unfold zoneFinal
    rw [show (markZoneUnavailable (zoneApply x d.name (convert_zone_status d.status) (d.pass_type.getD 2))).index = x.index from rfl,
        hl]
    rfl
  | none =>
    have h1 : zoneFinal ds x = x := by unfold zoneFinal; rw [hl]
    rw [h1]
    rcases hx with hmark | hsome
    · unfold zoneFinal
      rw [show (markZoneUnavailable x).index = x.index from rfl, hl, hmark]
    · rw [hl] at hsome; cases hsome

/-! Dropping the descriptors of one index. -/

theorem dropIdxZone_nil (i : Int) : dropIdxZone i [] = [] := rfl

theorem dropIdxZone_cons_eq (i : Int) (d : ZoneDesc) (rest : List ZoneDesc)
    (h : zoneDescIndex d = i) : dropIdxZone i (d :: rest) = dropIdxZone i rest := by
  simp [dropIdxZone, List.filter_cons, h]

theorem dropIdxZone_cons_ne (i : Int) (d : ZoneDesc) (rest : List ZoneDesc)
    (h : (zoneDescIndex d == i) = false) :
    dropIdxZone i (d :: rest) = d :: dropIdxZone i rest := by
  simp [dropIdxZone, List.filter_cons, h]

theorem lastDescZone_dropIdx (i j : Int) (ds : List ZoneDesc) (hij : i ≠ j) :
    lastDescZone i (dropIdxZone j ds) = lastDescZone i ds := by
  induction ds with
  | nil => rfl
  | cons d rest ih =>
    cases hdj : (zoneDescIndex d == j) with
    | true =>
      have hdj2 : zoneDescIndex d = j := by simpa using hdj
      rw [dropIdxZone_cons_eq _ _ _ hdj2, ih,
          lastDescZone_cons_nocontrib _ _ _ (by
            intro hc
            exact hij (by rw [← hc.2, hdj2]))]
    | false => rw [dropIdxZone_cons_ne _ _ _ hdj, lastDescZone_cons, lastDescZone_cons, ih]

/-- Peeling the head entity off a pure zone update pass: descriptors carrying
its index stop at the head (the head is always the first match of its own
index), the remaining descriptors act on the tail. -/
theorem applyZoneDescs_cons_head (ds : List ZoneDesc) :
    ∀ x X', applyZoneDescs (x :: X') ds =
      zoneFinal ds x :: applyZoneDescs X' (dropIdxZone x.index ds) := by
  induction ds with
  | nil => intro x X'; rfl
  | cons d rest ih =>
    intro x X'
    by_cases hneg : zoneDescIndex d < 0
    · rw [applyZoneDescs_cons_neg _ _ _ hneg, ih x X',
          zoneFinal_cons_nocontrib _ _ _ (by intro hc; omega)]
      cases hdx : (zoneDescIndex d == x.index) with
      | true => rw [dropIdxZone_cons_eq _ _ _ (by simpa using hdx)]
      | false =>
        rw [dropIdxZone_cons_ne _ _ _ hdx, applyZoneDescs_cons_neg _ _ _ hneg]
    · by_cases hdx : zoneDescIndex d = x.index
      · rw [applyZoneDescs_cons_pos _ _ _ hneg,
            setZoneFields_cons_eq _ _ _ _ _ _ (by simp [hdx.symm]),
            ih _ X',
            show (zoneApply x d.name (convert_zone_status d.status) (d.pass_type.getD 2)).index = x.index from rfl,
            zoneFinal_step d rest x hneg hdx,
            dropIdxZone_cons_eq _ _ _ hdx]
      · rw [applyZoneDescs_cons_pos _ _ _ hneg,
            setZoneFields_cons_ne _ _ _ _ _ _ (by
              exact beq_eq_false_iff_ne.mpr (fun he => hdx he.symm)),
            ih x _,
            zoneFinal_cons_nocontrib _ _ _ (fun hc => hdx hc.2),
            dropIdxZone_cons_ne _ _ _ (beq_eq_false_iff_ne.mpr hdx),
            applyZoneDescs_cons_pos _ _ _ hneg]

/-- On a list where each entity is marked or is the first occurrence of a
still-assigned index, the pure update pass absorbs a preceding
mark-unavailable pass. -/
theorem applyZoneDescs_restore : ∀ (Z : List Zone) (ds : List ZoneDesc),
    CondListZone Z ds →
    applyZoneDescs ((applyZoneDescs Z ds).map markZoneUnavailable) ds =
      applyZoneDescs Z ds := by
  intro Z
  induction Z with
  | nil => intro ds _; simp [applyZoneDescs_nil_list]
  | cons x rest ih =>
    intro ds hcond
    obtain ⟨hx, hcond2⟩ := hcond
    rw [applyZoneDescs_cons_head ds x rest, List.map_cons,
        applyZoneDescs_cons_head ds (markZoneUnavailable (zoneFinal ds x)) _,
        show (markZoneUnavailable (zoneFinal ds x)).index = x.index from by
          rw [markZoneUnavailable_index, zoneFinal_index],
        zoneFinal_mark_restore ds x hx]
    congr 1
    exact ih (dropIdxZone x.index ds) hcond2

theorem condListZone_fresh : ∀ (F : List Zone) (ds : List ZoneDesc),
    (∀ z ∈ F, (lastDescZone z.index ds).isSome) →
    ((F.map (fun z => z.index)).Nodup) → CondListZone F ds := by
  intro F
  induction F with
  | nil => intro ds _ _; trivial
  | cons z rest ih =>
    intro ds hcov hnod
    refine ⟨Or.inr (hcov z (List.mem_cons_self _ _)), ?_⟩
    refine ih (dropIdxZone z.index ds) ?_ (List.nodup_cons.mp hnod).2
    intro w hw
    have hne : w.index ≠ z.index := by
      intro he
      exact (List.nodup_cons.mp hnod).1 (List.mem_map.mpr ⟨w, hw, he⟩)
    rw [lastDescZone_dropIdx _ _ _ hne]
    exact hcov w (List.mem_cons_of_mem _ hw)

theorem condListZone_blocks : ∀ (M F : List Zone) (ds : List ZoneDesc),
    (∀ z ∈ M, markZoneUnavailable z = z) →
    (∀ z ∈ F, (lastDescZone z.index ds).isSome) →
    ((F.map (fun z => z.index)).Nodup) →
    (∀ z ∈ F, ∀ w ∈ M, w.index ≠ z.index) →
    CondListZone (M ++ F) ds := by
  intro M
  induction M with
  | nil => intro F ds _ hF hnod _; exact condListZone_fresh F ds hF hnod
  | cons m M2 ih =>
    intro F ds hM hF hnod hMF
    refine ⟨Or.inl (hM m (List.mem_cons_self _ _)), ?_⟩
    refine ih F (dropIdxZone m.index ds)
      (fun z hz => hM z (List.mem_cons_of_mem _ hz)) ?_ hnod
      (fun z hz w hw => hMF z hz w (List.mem_cons_of_mem _ hw))
    intro z hz
    have hne : z.index ≠ m.index := Ne.symm (hMF z hz m (List.mem_cons_self _ _))
    rw [lastDescZone_dropIdx _ _ _ hne]
    exact hF z hz

/-! Unfolding and structural lemmas for the created-zone recomputation. -/

theorem freshZoneList_nil (so : Option String) (zs : List Zone) :
    freshZoneList so zs [] = [] := rfl

theorem freshZoneList_cons_neg (so : Option String) (zs : List Zone) (d : ZoneDesc)
    (rest : List ZoneDesc) (h : zoneDescIndex d < 0) :
    freshZoneList so zs (d :: rest) = freshZoneList so zs rest := by
  simp [freshZoneList, h]

theorem freshZoneList_cons_found (so : Option String) (zs : List Zone) (d : ZoneDesc)
    (rest : List ZoneDesc) (z : Zone) (h : ¬ zoneDescIndex d < 0)
    (hg : get_zone zs (zoneDescIndex d) = some z) :
    freshZoneList so zs (d :: rest) = freshZoneList so zs rest := by
  simp [freshZoneList, h, hg]

theorem freshZoneList_cons_new (so : Option String) (zs : List Zone) (d : ZoneDesc)
    (rest : List ZoneDesc) (ser : String) (h : ¬ zoneDescIndex d < 0)
    (hg : get_zone zs (zoneDescIndex d) = none) (hs : so = some ser) :
    freshZoneList so zs (d :: rest) =
      zoneApply (Zone.make (zoneDescIndex d) ser none) d.name (convert_zone_status d.status) (d.pass_type.getD 2) ::
        freshZoneList so
          (zs ++ [zoneApply (Zone.make (zoneDescIndex d) ser none) d.name (convert_zone_status d.status) (d.pass_type.getD 2)])
          rest := by
  simp [freshZoneList, h, hg, hs]

theorem freshZoneList_spec (ds : List ZoneDesc) :
    ∀ so zs, (∀ z ∈ freshZoneList so zs ds, get_zone zs z.index = none) ∧
      ((freshZoneList so zs ds).map (fun z => z.index)).Nodup := by
  induction ds with
  | nil => intro so zs; simp [freshZoneList_nil]
  | cons d rest ih =>
    intro so zs
    by_cases hneg : zoneDescIndex d < 0
    · rw [freshZoneList_cons_neg _ _ _ _ hneg]; exact ih so zs
    · cases hg : get_zone zs (zoneDescIndex d) with
      | some z => rw [freshZoneList_cons_found _ _ _ _ _ hneg hg]; exact ih so zs
      | none =>
        cases hso : so with
        | none => simp [freshZoneList, hneg, hg]
        | some ser =>
          subst hso
          rw [freshZoneList_cons_new _ _ _ _ ser hneg hg rfl]
          have ih2 := ih (some ser)
            (zs ++ [zoneApply (Zone.make (zoneDescIndex d) ser none) d.name (convert_zone_status d.status) (d.pass_type.getD 2)])
          constructor
          · intro z hz
            rcases List.mem_cons.mp hz with hz0 | hz2
            · subst hz0; exact hg
            · exact get_zone_append_none_left _ _ _ (ih2.1 z hz2)
          · rw [List.map_cons, List.nodup_cons]
            constructor
            · intro hmem
              rcases List.mem_map.mp hmem with ⟨w, hw, hwi⟩
              have := ih2.1 w hw
              rw [get_zone_eq_none] at this
              exact this
                (zoneApply (Zone.make (zoneDescIndex d) ser none) d.name (convert_zone_status d.status) (d.pass_type.getD 2))
                (List.mem_append_right _ (List.mem_singleton_self _)) (by rw [hwi])
            · exact ih2.2

theorem freshZoneList_mem_seen (ds : List ZoneDesc) :
    ∀ so zs z, z ∈ freshZoneList so zs ds → z.index ∈ seenIdxZone ds := by
  induction ds with
  | nil => intro so zs z hz; rw [freshZoneList_nil] at hz; cases hz
  | cons d rest ih =>
    intro so zs z hz
    by_cases hneg : zoneDescIndex d < 0
    · rw [freshZoneList_cons_neg _ _ _ _ hneg] at hz
      rw [seenIdxZone_cons_neg _ _ hneg]
      exact ih _ _ _ hz
    · rw [seenIdxZone_cons_pos _ _ hneg]
      cases hg : get_zone zs (zoneDescIndex d) with
      | some o =>
        rw [freshZoneList_cons_found _ _ _ _ _ hneg hg] at hz
        exact List.mem_cons_of_mem _ (ih _ _ _ hz)
      | none =>
        cases hso : so with
        | none => simp [freshZoneList, hneg, hg, hso] at hz
        | some ser =>
          rw [freshZoneList_cons_new _ _ _ _ _ hneg hg hso] at hz
          rcases List.mem_cons.mp hz with hz0 | hz2
          · subst hz0; exact List.mem_cons_self _ _
          · exact List.mem_cons_of_mem _ (ih _ _ _ hz2)

theorem freshZoneList_congr (ds : List ZoneDesc) :
    ∀ so X Y, (∀ j, (get_zone X j).isSome = (get_zone Y j).isSome) →
      freshZoneList so X ds = freshZoneList so Y ds := by
  induction ds with
  | nil => intro so X Y _; rfl
  | cons d rest ih =>
    intro so X Y h
    by_cases hneg : zoneDescIndex d < 0
    · rw [freshZoneList_cons_neg _ _ _ _ hneg, freshZoneList_cons_neg _ _ _ _ hneg]
      exact ih so X Y h
    · cases hgX : get_zone X (zoneDescIndex d) with
      | some o =>
        have hY : (get_zone Y (zoneDescIndex d)).isSome = true := by
          rw [← h (zoneDescIndex d), hgX]; rfl
        rcases Option.isSome_iff_exists.mp hY with ⟨o2, hgY⟩
        rw [freshZoneList_cons_found _ _ _ _ _ hneg hgX,
            freshZoneList_cons_found _ _ _ _ _ hneg hgY]
        exact ih so X Y h
      | none =>
        have hgY : get_zone Y (zoneDescIndex d) = none := by
          have := h (zoneDescIndex d)
          rw [hgX] at this
          cases hY : get_zone Y (zoneDescIndex d) with
          | none => rfl
          | some o2 => rw [hY] at this; cases this
        cases hso : so with
        | none => simp [freshZoneList, hneg, hgX, hgY, hso]
        | some ser =>
          subst hso
          rw [freshZoneList_cons_new _ _ _ _ ser hneg hgX rfl,
              freshZoneList_cons_new _ _ _ _ ser hneg hgY rfl]
          congr 1
          refine ih (some ser) _ _ ?_
          intro j
          rw [get_zone_append_single_isSome, get_zone_append_single_isSome, h j]

theorem map_mark_mark_zone (xs : List Zone) :
    (xs.map markZoneUnavailable).map markZoneUnavailable =
      xs.map markZoneUnavailable := by
  rw [List.map_map]
  exact List.map_congr_left (fun z _ => mark_mark_zone z)

theorem map_mark_filter_zone (xs : List Zone) (p : Int → Bool) :
    (xs.filter (fun z => p z.index)).map markZoneUnavailable =
      (xs.map markZoneUnavailable).filter (fun z => p z.index) := by
  induction xs with
  | nil => rfl
  | cons z rest ih =>
    cases hp : p z.index with
    | true => simp [List.filter_cons, hp, markZoneUnavailable, ih]
    | false => simp [List.filter_cons, hp, markZoneUnavailable, ih]

theorem filter_setZoneFields (xs : List Zone) (p : Int → Bool) (i : Int)
    (nm : Option String) (st : Option String) (pt : Int) :
    (setZoneFields xs i nm st pt).filter (fun z => p z.index) =
      setZoneFields (xs.filter (fun z => p z.index)) i nm st pt := by
  induction xs with
  | nil => rfl
  | cons z rest ih =>
    cases hzi : (z.index == i) with
    | true =>
      have hz : z.index = i := by simpa using hzi
      rw [setZoneFields_cons_eq _ _ _ _ _ _ hzi]
      cases hp : p i with
      | true =>
        rw [@List.filter_cons_of_pos _ (fun w => p w.index) (zoneApply z nm st pt) rest
              (by show p (zoneApply z nm st pt).index = true; rw [zoneApply_index, hz]; exact hp),
            @List.filter_cons_of_pos _ (fun w => p w.index) z rest
              (by show p z.index = true; rw [hz]; exact hp),
            setZoneFields_cons_eq _ _ _ _ _ _ hzi]
      | false =>
        rw [@List.filter_cons_of_neg _ (fun w => p w.index) (zoneApply z nm st pt) rest
              (by show ¬ p (zoneApply z nm st pt).index = true; rw [zoneApply_index, hz, hp]; simp),
            @List.filter_cons_of_neg _ (fun w => p w.index) z rest
              (by show ¬ p z.index = true; rw [hz, hp]; simp)]
        have hnone : get_zone (rest.filter (fun z => p z.index)) i = none := by
          rw [get_zone_filter rest p i, hp]
          simp
        exact (setZoneFields_nomatch _ _ _ _ _ hnone).symm
    | false =>
      rw [setZoneFields_cons_ne _ _ _ _ _ _ hzi]
      cases hp : p z.index with
      | true =>
        rw [@List.filter_cons_of_pos _ (fun w => p w.index) z (setZoneFields rest i nm st pt) hp,
            @List.filter_cons_of_pos _ (fun w => p w.index) z rest hp,
            setZoneFields_cons_ne _ _ _ _ _ _ hzi, ih]
      | false =>
        rw [@List.filter_cons_of_neg _ (fun w => p w.index) z (setZoneFields rest i nm st pt)
              (by show ¬ p z.index = true; rw [hp]; simp),
            @List.filter_cons_of_neg _ (fun w => p w.index) z rest
              (by show ¬ p z.index = true; rw [hp]; simp)]
        exact ih

theorem filter_applyZoneDescs (ds : List ZoneDesc) :
    ∀ xs (p : Int → Bool),
      (applyZoneDescs xs ds).filter (fun z => p z.index) =
        applyZoneDescs (xs.filter (fun z => p z.index)) ds := by
  induction ds with
  | nil => intro xs p; rfl
  | cons d rest ih =>
    intro xs p
    by_cases hneg : zoneDescIndex d < 0
    · rw [applyZoneDescs_cons_neg _ _ _ hneg, applyZoneDescs_cons_neg _ _ _ hneg]
      exact ih xs p
    · rw [applyZoneDescs_cons_pos _ _ _ hneg, applyZoneDescs_cons_pos _ _ _ hneg,
          ih _ p, filter_setZoneFields]

/-- A successful zone pass equals the pure update pass applied to the
retained list extended with the created zones. -/
theorem zonesLoop_preseed (ds : List ZoneDesc) :
    ∀ so zs seen created a b c,
      zonesLoop so zs seen created ds = .ok (a, b, c) →
      a = applyZoneDescs (zs ++ freshZoneList so zs ds) ds := by
  induction ds with
  | nil =>
    intro so zs seen created a b c h
    rw [zonesLoop_nil] at h; cases h
    rw [freshZoneList_nil, List.append_nil, applyZoneDescs_nil]
  | cons d rest ih =>
    intro so zs seen created a b c h
    by_cases hneg : zoneDescIndex d < 0
    · rw [zonesLoop_cons_neg _ _ _ _ _ _ hneg] at h
      rw [freshZoneList_cons_neg _ _ _ _ hneg, applyZoneDescs_cons_neg _ _ _ hneg]
      exact ih _ _ _ _ _ _ _ h
    · cases hg : get_zone zs (zoneDescIndex d) with
      | some o =>
        rw [zonesLoop_cons_found _ _ _ _ _ _ _ hneg hg] at h
        rw [freshZoneList_cons_found _ _ _ _ _ hneg hg,
            applyZoneDescs_cons_pos _ _ _ hneg,
            setZoneFields_append_left _ _ _ _ _ _ (by rw [hg]; rfl)]
        have hcongr : freshZoneList so zs rest =
            freshZoneList so
              (setZoneFields zs (zoneDescIndex d) d.name (convert_zone_status d.status) (d.pass_type.getD 2)) rest :=
          freshZoneList_congr rest so _ _
            (fun j => (get_zone_set_isSome zs (zoneDescIndex d) j d.name
              (convert_zone_status d.status) (d.pass_type.getD 2)).symm)
        rw [hcongr]
        exact ih _ _ _ _ _ _ _ h
      | none =>
        cases hso : so with
        | none => rw [zonesLoop_cons_err _ _ _ _ _ _ hneg hg hso] at h; cases h
        | some ser =>
          subst hso
          rw [zonesLoop_cons_new _ _ _ _ _ _ ser hneg hg rfl] at h
          rw [freshZoneList_cons_new _ _ _ _ ser hneg hg rfl,
              applyZoneDescs_cons_pos _ _ _ hneg]
          have hre : zs ++
              (zoneApply (Zone.make (zoneDescIndex d) ser none) d.name (convert_zone_status d.status) (d.pass_type.getD 2) ::
                freshZoneList (some ser)
                  (zs ++ [zoneApply (Zone.make (zoneDescIndex d) ser none) d.name (convert_zone_status d.status) (d.pass_type.getD 2)]) rest) =
              (zs ++ [zoneApply (Zone.make (zoneDescIndex d) ser none) d.name (convert_zone_status d.status) (d.pass_type.getD 2)]) ++
                freshZoneList (some ser)
                  (zs ++ [zoneApply (Zone.make (zoneDescIndex d) ser none) d.name (convert_zone_status d.status) (d.pass_type.getD 2)]) rest := by
            simp
          have hsome : (get_zone
              (zs ++ [zoneApply (Zone.make (zoneDescIndex d) ser none) d.name (convert_zone_status d.status) (d.pass_type.getD 2)])
              (zoneDescIndex d)).isSome := by
            rw [get_zone_append_single_self zs
              (zoneApply (Zone.make (zoneDescIndex d) ser none) d.name (convert_zone_status d.status) (d.pass_type.getD 2))
              (zoneDescIndex d) rfl hg]
            rfl
          rw [hre, setZoneFields_append_left _ _ _ _ _ _ hsome,
              setZoneFields_append_right _ _ _ _ _ _ hg]
          have hsingle : setZoneFields
              [zoneApply (Zone.make (zoneDescIndex d) ser none) d.name (convert_zone_status d.status) (d.pass_type.getD 2)]
              (zoneDescIndex d) d.name (convert_zone_status d.status) (d.pass_type.getD 2) =
              [zoneApply (Zone.make (zoneDescIndex d) ser none) d.name (convert_zone_status d.status) (d.pass_type.getD 2)] := by
            simp [setZoneFields, zoneApply_zoneApply]
          rw [hsingle]
          exact ih _ _ _ _ _ _ _ h

/-- When every valid incoming zone index is already present, the loop creates
nothing. -/
theorem zonesLoop_nocreate (ds : List ZoneDesc) :
    ∀ so zs seen created,
      (∀ i ∈ seenIdxZone ds, (get_zone zs i).isSome) →
      zonesLoop so zs seen created ds =
        .ok (applyZoneDescs zs ds, seen ++ seenIdxZone ds, applyZoneDescs created ds) := by
  induction ds with
  | nil =>
    intro so zs seen created _
    rw [zonesLoop_nil, applyZoneDescs_nil, applyZoneDescs_nil, seenIdxZone_nil,
        List.append_nil]
  | cons d rest ih =>
    intro so zs seen created hp
    by_cases hneg : zoneDescIndex d < 0
    · rw [zonesLoop_cons_neg _ _ _ _ _ _ hneg, applyZoneDescs_cons_neg _ _ _ hneg,
          applyZoneDescs_cons_neg _ _ _ hneg, seenIdxZone_cons_neg _ _ hneg]
      exact ih _ _ _ _ (by rw [seenIdxZone_cons_neg _ _ hneg] at hp; exact hp)
    · have hmem : zoneDescIndex d ∈ seenIdxZone (d :: rest) := by
        rw [seenIdxZone_cons_pos _ _ hneg]; exact List.mem_cons_self _ _
      rcases Option.isSome_iff_exists.mp (hp _ hmem) with ⟨e0, hg⟩
      rw [zonesLoop_cons_found _ _ _ _ _ _ _ hneg hg,
          applyZoneDescs_cons_pos _ _ _ hneg, applyZoneDescs_cons_pos _ _ _ hneg,
          seenIdxZone_cons_pos _ _ hneg]
      have hp2 : ∀ i ∈ seenIdxZone rest,
          (get_zone (setZoneFields zs (zoneDescIndex d) d.name (convert_zone_status d.status) (d.pass_type.getD 2)) i).isSome := by
        intro i hi
        rw [get_zone_set_isSome]
        exact hp i (by rw [seenIdxZone_cons_pos _ _ hneg]; exact List.mem_cons_of_mem _ hi)
      rw [ih _ _ _ _ hp2]
      simp

theorem update_zones_core_eq (so : Option String) (cur : List Zone)
    (ds : List ZoneDesc) (a : List Zone) (b : List Int) (c : List Zone)
    (hl : zonesLoop so (cur.map markZoneUnavailable) [] [] ds = .ok (a, b, c)) :
    update_zones_core so cur ds =
      .ok (c, if 0 < b.length then a.filter (fun z => b.contains z.index) else a) := by
  unfold update_zones_core
  rw [hl]

theorem update_zones_core_err (so : Option String) (cur : List Zone)
    (ds : List ZoneDesc) (e : PyErr)
    (hl : zonesLoop so (cur.map markZoneUnavailable) [] [] ds = .error e) :
    update_zones_core so cur ds = .error e := by
  unfold update_zones_core
  rw [hl]

/-- Applying the same zone descriptor list twice: the second pass creates
nothing and leaves the retained zone list exactly as the first pass left
it. -/
theorem update_zones_core_idem (so : Option String) (cur : List Zone)
    (ds : List ZoneDesc) (n cur1 : List Zone)
    (h : update_zones_core so cur ds = .ok (n, cur1)) :
    update_zones_core so cur1 ds = .ok ([], cur1) := by
  by_cases hse : seenIdxZone ds = []
  · rw [update_zones_core_eq so cur ds _ _ _
        (zonesLoop_no_valid ds hse so (cur.map markZoneUnavailable) [] []),
        if_neg (by simp)] at h
    cases h
    rw [update_zones_core_eq so (cur.map markZoneUnavailable) ds _ _ _
        (zonesLoop_no_valid ds hse so ((cur.map markZoneUnavailable).map markZoneUnavailable) [] []),
        if_neg (by simp), map_mark_mark_zone]
  · cases hl : zonesLoop so (cur.map markZoneUnavailable) [] [] ds with
    | error e => rw [update_zones_core_err so cur ds e hl] at h; cases h
    | ok t =>
      obtain ⟨a, b, c⟩ := t
      rw [update_zones_core_eq so cur ds _ _ _ hl] at h
      have hb : b = seenIdxZone ds := by
        have := zonesLoop_seen ds _ _ _ _ _ _ _ hl
        simpa using this
      subst hb
      have hlen : 0 < (seenIdxZone ds).length := List.length_pos.mpr hse
      rw [if_pos hlen] at h
      cases h
      have hpre := zonesLoop_preseed ds _ _ _ _ _ _ _ hl
      have hseenp := zonesLoop_seen_present ds _ _ _ _ _ _ _ hl
      have hpres2 : ∀ i ∈ seenIdxZone ds,
          (get_zone
            ((a.filter (fun z => (seenIdxZone ds).contains z.index)).map markZoneUnavailable)
            i).isSome := by
        intro i hi
        rw [get_zone_map_mark]
        have heq : get_zone (a.filter (fun z => (seenIdxZone ds).contains z.index)) i =
            get_zone a i := by
          rw [get_zone_filter a (fun j => (seenIdxZone ds).contains j) i,
              if_pos ((int_contains_iff _ _).mpr hi)]
        rw [heq]
        have := hseenp i hi
        cases hgi : get_zone a i with
        | none => rw [hgi] at this; cases this
        | some o => rfl
      have hrun2 := zonesLoop_nocreate ds so
        ((a.filter (fun z => (seenIdxZone ds).contains z.index)).map markZoneUnavailable)
        [] [] hpres2
      -- the restore argument: the pre-seeded list satisfies the scan condition
      have habs := (freshZoneList_spec ds so (cur.map markZoneUnavailable)).1
      have hnod := (freshZoneList_spec ds so (cur.map markZoneUnavailable)).2
      have hcond : CondListZone
          (cur.map markZoneUnavailable ++ freshZoneList so (cur.map markZoneUnavailable) ds) ds := by
        refine condListZone_blocks _ _ _ ?_ ?_ hnod ?_
        · intro z hz
          rcases List.mem_map.mp hz with ⟨w, hw, hwz⟩
          rw [← hwz]
          exact mark_mark_zone w
        · intro z hz
          exact (mem_seenIdxZone_iff z.index ds).mp (freshZoneList_mem_seen ds _ _ _ hz)
        · intro z hz w hw
          have := habs z hz
          rw [get_zone_eq_none] at this
          exact this w hw
      have hsame : applyZoneDescs (a.map markZoneUnavailable) ds = a := by
        rw [hpre]
        exact applyZoneDescs_restore _ ds hcond
      have hfa : applyZoneDescs
          ((a.filter (fun z => (seenIdxZone ds).contains z.index)).map markZoneUnavailable) ds =
          a.filter (fun z => (seenIdxZone ds).contains z.index) := by
        rw [map_mark_filter_zone a (fun j => (seenIdxZone ds).contains j),
            ← filter_applyZoneDescs ds _ (fun j => (seenIdxZone ds).contains j), hsame]
      rw [hfa, applyZoneDescs_nil_list] at hrun2
      rw [update_zones_core_eq so _ ds _ _ _ hrun2]
      simp only [List.nil_append]
      rw [if_pos hlen]
      have hidem : (a.filter (fun z => (seenIdxZone ds).contains z.index)).filter
          (fun z => (seenIdxZone ds).contains z.index) =
          a.filter (fun z => (seenIdxZone ds).contains z.index) :=
        List.filter_eq_self.mpr (fun z hz =>
          @List.of_mem_filter _ (fun w => (seenIdxZone ds).contains w.index) z a hz)
      rw [hidem]

/-! Index uniqueness is preserved by a pass. -/

theorem map_index_mark_out (xs : List Output) :
    (xs.map markOutputUnavailable).map (fun o => o.index) = xs.map (fun o => o.index) := by
  rw [List.map_map]
  exact List.map_congr_left (fun o _ => rfl)

theorem map_index_mark_zone (xs : List Zone) :
    (xs.map markZoneUnavailable).map (fun z => z.index) = xs.map (fun z => z.index) := by
  rw [List.map_map]
  exact List.map_congr_left (fun z _ => rfl)

theorem outputsLoop_nodup (ds : List OutputDesc) :
    ∀ so outs seen created a b c,
      outputsLoop so outs seen created ds = .ok (a, b, c) →
      (outs.map (fun o => o.index)).Nodup → (a.map (fun o => o.index)).Nodup := by
  induction ds with
  | nil => intro so outs seen created a b c h hn; rw [outputsLoop_nil] at h; cases h; exact hn
  | cons d rest ih =>
    intro so outs seen created a b c h hn
    by_cases hneg : outDescIndex d < 0
    · rw [outputsLoop_cons_neg _ _ _ _ _ _ hneg] at h
      exact ih _ _ _ _ _ _ _ h hn
    · cases hg : get_output outs (outDescIndex d) with
      | some o =>
        rw [outputsLoop_cons_found _ _ _ _ _ _ _ hneg hg] at h
        refine ih _ _ _ _ _ _ _ h ?_
        rw [setOutputState_index_map]
        exact hn
      | none =>
        cases hso : so with
        | none => rw [outputsLoop_cons_err _ _ _ _ _ _ hneg hg hso] at h; cases h
        | some ser =>
          rw [outputsLoop_cons_new _ _ _ _ _ _ _ hneg hg hso] at h
          refine ih _ _ _ _ _ _ _ h ?_
          have habs : outDescIndex d ∉ outs.map (fun o => o.index) := by
            intro hmem
            rcases List.mem_map.mp hmem with ⟨w, hw, hwi⟩
            exact ((get_output_eq_none outs (outDescIndex d)).mp hg w hw) hwi
          rw [List.map_append]
          have hidx : ((([outApply (Output.make (outDescIndex d) ser none) (convert_outputs_status d.status)]).map
              (fun o => o.index))) = [outDescIndex d] := rfl
          rw [hidx]
          simp [List.nodup_append, hn, habs]

theorem zonesLoop_nodup (ds : List ZoneDesc) :
    ∀ so zs seen created a b c,
      zonesLoop so zs seen created ds = .ok (a, b, c) →
      (zs.map (fun z => z.index)).Nodup → (a.map (fun z => z.index)).Nodup := by
  induction ds with
  | nil => intro so zs seen created a b c h hn; rw [zonesLoop_nil] at h; cases h; exact hn
  | cons d rest ih =>
    intro so zs seen created a b c h hn
    by_cases hneg : zoneDescIndex d < 0
    · rw [zonesLoop_cons_neg _ _ _ _ _ _ hneg] at h
      exact ih _ _ _ _ _ _ _ h hn
    · cases hg : get_zone zs (zoneDescIndex d) with
      | some z =>
        rw [zonesLoop_cons_found _ _ _ _ _ _ _ hneg hg] at h
        refine ih _ _ _ _ _ _ _ h ?_
        rw [setZoneFields_index_map]
        exact hn
      | none =>
        cases hso : so with
        | none => rw [zonesLoop_cons_err _ _ _ _ _ _ hneg hg hso] at h; cases h
        | some ser =>
          rw [zonesLoop_cons_new _ _ _ _ _ _ _ hneg hg hso] at h
          refine ih _ _ _ _ _ _ _ h ?_
          have habs : zoneDescIndex d ∉ zs.map (fun z => z.index) := by
            intro hmem
            rcases List.mem_map.mp hmem with ⟨w, hw, hwi⟩
            exact ((get_zone_eq_none zs (zoneDescIndex d)).mp hg w hw) hwi
          rw [List.map_append]
          have hidx : ((([zoneApply (Zone.make (zoneDescIndex d) ser none) d.name (convert_zone_status d.status) (d.pass_type.getD 2)]).map
              (fun z => z.index))) = [zoneDescIndex d] := rfl
          rw [hidx]
          simp [List.nodup_append, hn, habs]

theorem update_outputs_core_nodup (so : Option String) (cur : List Output)
    (ds : List OutputDesc) (n cur1 : List Output)
    (h : update_outputs_core so cur ds = .ok (n, cur1))
    (hn : (cur.map (fun o => o.index)).Nodup) : (cur1.map (fun o => o.index)).Nodup := by
  cases hl : outputsLoop so (cur.map markOutputUnavailable) [] [] ds with
  | error e => rw [update_outputs_core_err so cur ds e hl] at h; cases h
  | ok t =>
    obtain ⟨a, b, c⟩ := t
    rw [update_outputs_core_eq so cur ds _ _ _ hl] at h
    have hna : (a.map (fun o => o.index)).Nodup := by
      refine outputsLoop_nodup ds _ _ _ _ _ _ _ hl ?_
      rw [map_index_mark_out]
      exact hn
    cases h
    split
    · exact hna.sublist ((List.filter_sublist a).map _)
    · exact hna

theorem update_zones_core_nodup (so : Option String) (cur : List Zone)
    (ds : List ZoneDesc) (n cur1 : List Zone)
    (h : update_zones_core so cur ds = .ok (n, cur1))
    (hn : (cur.map (fun z => z.index)).Nodup) : (cur1.map (fun z => z.index)).Nodup := by
  cases hl : zonesLoop so (cur.map markZoneUnavailable) [] [] ds with
  | error e => rw [update_zones_core_err so cur ds e hl] at h; cases h
  | ok t =>
    obtain ⟨a, b, c⟩ := t
    rw [update_zones_core_eq so cur ds _ _ _ hl] at h
    have hna : (a.map (fun z => z.index)).Nodup := by
      refine zonesLoop_nodup ds _ _ _ _ _ _ _ hl ?_
      rw [map_index_mark_zone]
      exact hn
    cases h
    split
    · exact hna.sublist ((List.filter_sublist a).map _)
    · exact hna

/-! The availability invariant is established by every pass. -/

theorem mem_setOutputState (xs : List Output) (i : Int) (v : Option Bool) (o : Output)
    (h : o ∈ setOutputState xs i v) : o ∈ xs ∨ ∃ u, u ∈ xs ∧ o = outApply u v := by
  induction xs with
  | nil => cases h
  | cons p rest ih =>
    cases hp : (p.index == i) with
    | true =>
      rw [setOutputState_cons_eq _ _ _ _ hp] at h
      rcases List.mem_cons.mp h with h0 | h1
      · exact Or.inr ⟨p, List.mem_cons_self _ _, h0⟩
      · exact Or.inl (List.mem_cons_of_mem _ h1)
    | false =>
      rw [setOutputState_cons_ne _ _ _ _ hp] at h
      rcases List.mem_cons.mp h with h0 | h1
      · exact Or.inl (h0 ▸ List.mem_cons_self _ _)
      · rcases ih h1 with h2 | ⟨u, hu, he⟩
        · exact Or.inl (List.mem_cons_of_mem _ h2)
        · exact Or.inr ⟨u, List.mem_cons_of_mem _ hu, he⟩

theorem mem_setZoneFields (xs : List Zone) (i : Int) (nm : Option String)
    (st : Option String) (pt : Int) (z : Zone)
    (h : z ∈ setZoneFields xs i nm st pt) :
    z ∈ xs ∨ ∃ u, u ∈ xs ∧ z = zoneApply u nm st pt := by
  induction xs with
  | nil => cases h
  | cons p rest ih =>
    cases hp : (p.index == i) with
    | true =>
      rw [setZoneFields_cons_eq _ _ _ _ _ _ hp] at h
      rcases List.mem_cons.mp h with h0 | h1
      · exact Or.inr ⟨p, List.mem_cons_self _ _, h0⟩
      · exact Or.inl (List.mem_cons_of_mem _ h1)
    | false =>
      rw [setZoneFields_cons_ne _ _ _ _ _ _ hp] at h
      rcases List.mem_cons.mp h with h0 | h1
      · exact Or.inl (h0 ▸ List.mem_cons_self _ _)
      · rcases ih h1 with h2 | ⟨u, hu, he⟩
        · exact Or.inl (List.mem_cons_of_mem _ h2)
        · exact Or.inr ⟨u, List.mem_cons_of_mem _ hu, he⟩

theorem outputsLoop_inv (ds : List OutputDesc) :
    ∀ so outs seen created a b c,
      outputsLoop so outs seen created ds = .ok (a, b, c) →
      (∀ o ∈ outs, o.available = o.state.isSome) →
      (∀ o ∈ created, o.available = o.state.isSome) →
      (∀ o ∈ a, o.available = o.state.isSome) ∧ (∀ o ∈ c, o.available = o.state.isSome) := by
  induction ds with
  | nil =>
    intro so outs seen created a b c h h1 h2
    rw [outputsLoop_nil] at h; cases h; exact ⟨h1, h2⟩
  | cons d rest ih =>
    intro so outs seen created a b c h h1 h2
    by_cases hneg : outDescIndex d < 0
    · rw [outputsLoop_cons_neg _ _ _ _ _ _ hneg] at h
      exact ih _ _ _ _ _ _ _ h h1 h2
    · cases hg : get_output outs (outDescIndex d) with
      | some o =>
        rw [outputsLoop_cons_found _ _ _ _ _ _ _ hneg hg] at h
        refine ih _ _ _ _ _ _ _ h ?_ ?_
        · intro o2 ho2
          rcases mem_setOutputState _ _ _ _ ho2 with hm | ⟨u, _, he⟩
          · exact h1 o2 hm
          · rw [he]; rfl
        · intro o2 ho2
          rcases mem_setOutputState _ _ _ _ ho2 with hm | ⟨u, _, he⟩
          · exact h2 o2 hm
          · rw [he]; rfl
      | none =>
        cases hso : so with
        | none => rw [outputsLoop_cons_err _ _ _ _ _ _ hneg hg hso] at h; cases h
        | some ser =>
          rw [outputsLoop_cons_new _ _ _ _ _ _ _ hneg hg hso] at h
          refine ih _ _ _ _ _ _ _ h ?_ ?_
          · intro o2 ho2
            rcases List.mem_append.mp ho2 with hm | hm
            · exact h1 o2 hm
            · rw [List.mem_singleton.mp hm]; rfl
          · intro o2 ho2
            rcases List.mem_append.mp ho2 with hm | hm
            · exact h2 o2 hm
            · rw [List.mem_singleton.mp hm]; rfl

theorem zonesLoop_inv (ds : List ZoneDesc) :
    ∀ so zs seen created a b c,
      zonesLoop so zs seen created ds = .ok (a, b, c) →
      (∀ z ∈ zs, z.available = z.state.isSome) →
      (∀ z ∈ created, z.available = z.state.isSome) →
      (∀ z ∈ a, z.available = z.state.isSome) ∧ (∀ z ∈ c, z.available = z.state.isSome) := by
  induction ds with
  | nil =>
    intro so zs seen created a b c h h1 h2
    rw [zonesLoop_nil] at h; cases h; exact ⟨h1, h2⟩
  | cons d rest ih =>
    intro so zs seen created a b c h h1 h2
    by_cases hneg : zoneDescIndex d < 0
    · rw [zonesLoop_cons_neg _ _ _ _ _ _ hneg] at h
      exact ih _ _ _ _ _ _ _ h h1 h2
    · cases hg : get_zone zs (zoneDescIndex d) with
      | some z =>
        rw [zonesLoop_cons_found _ _ _ _ _ _ _ hneg hg] at h
        refine ih _ _ _ _ _ _ _ h ?_ ?_
        · intro z2 hz2
          rcases mem_setZoneFields _ _ _ _ _ _ hz2 with hm | ⟨u, _, he⟩
          · exact h1 z2 hm
          · rw [he]; rfl
        · intro z2 hz2
          rcases mem_setZoneFields _ _ _ _ _ _ hz2 with hm | ⟨u, _, he⟩
          · exact h2 z2 hm
          · rw [he]; rfl
      | none =>
        cases hso : so with
        | none => rw [zonesLoop_cons_err _ _ _ _ _ _ hneg hg hso] at h; cases h
        | some ser =>
          rw [zonesLoop_cons_new _ _ _ _ _ _ _ hneg hg hso] at h
          refine ih _ _ _ _ _ _ _ h ?_ ?_
          · intro z2 hz2
            rcases List.mem_append.mp hz2 with hm | hm
            · exact h1 z2 hm
            · rw [List.mem_singleton.mp hm]; rfl
          · intro z2 hz2
            rcases List.mem_append.mp hz2 with hm | hm
            · exact h2 z2 hm
            · rw [List.mem_singleton.mp hm]; rfl

theorem update_outputs_core_inv (so : Option String) (cur : List Output)
    (ds : List OutputDesc) (n cur1 : List Output)
    (h : update_outputs_core so cur ds = .ok (n, cur1)) :
    (∀ o ∈ cur1, o.available = o.state.isSome) ∧ (∀ o ∈ n, o.available = o.state.isSome) := by
  cases hl : outputsLoop so (cur.map markOutputUnavailable) [] [] ds with
  | error e => rw [update_outputs_core_err so cur ds e hl] at h; cases h
  | ok t =>
    obtain ⟨a, b, c⟩ := t
    rw [update_outputs_core_eq so cur ds _ _ _ hl] at h
    have hmarked : ∀ o ∈ cur.map markOutputUnavailable, o.available = o.state.isSome := by
      intro o ho
      rcases List.mem_map.mp ho with ⟨w, _, hw⟩
      rw [← hw]; rfl
    have hinv := outputsLoop_inv ds _ _ _ _ _ _ _ hl hmarked (by intro o ho; cases ho)
    cases h
    refine ⟨?_, hinv.2⟩
    split
    · intro o ho; exact hinv.1 o (List.mem_of_mem_filter ho)
    · exact hinv.1

theorem update_zones_core_inv (so : Option String) (cur : List Zone)
    (ds : List ZoneDesc) (n cur1 : List Zone)
    (h : update_zones_core so cur ds = .ok (n, cur1)) :
    (∀ z ∈ cur1, z.available = z.state.isSome) ∧ (∀ z ∈ n, z.available = z.state.isSome) := by
  cases hl : zonesLoop so (cur.map markZoneUnavailable) [] [] ds with
  | error e => rw [update_zones_core_err so cur ds e hl] at h; cases h
  | ok t =>
    obtain ⟨a, b, c⟩ := t
    rw [update_zones_core_eq so cur ds _ _ _ hl] at h
    have hmarked : ∀ z ∈ cur.map markZoneUnavailable, z.available = z.state.isSome := by
      intro z hz
      rcases List.mem_map.mp hz with ⟨w, _, hw⟩
      rw [← hw]; rfl
    have hinv := zonesLoop_inv ds _ _ _ _ _ _ _ hl hmarked (by intro z hz; cases hz)
    cases h
    refine ⟨?_, hinv.2⟩
    split
    · intro z hz; exact hinv.1 z (List.mem_of_mem_filter hz)
    · exact hinv.1

/-! Facade-level composition lemmas. -/

theorem update_outputs_mk (st : WebioState) (ds : List OutputDesc) (n cur1 : List Output)
    (h : update_outputs_core st.info_serial st.outputs ds = .ok (n, cur1)) :
    update_outputs st ds = .ok (n, { st with outputs := cur1 }) := by
  unfold update_outputs
  rw [h]

theorem update_zones_mk (st : WebioState) (ds : List ZoneDesc) (n cur1 : List Zone)
    (h : update_zones_core st.info_serial st.zones ds = .ok (n, cur1)) :
    update_zones st ds = .ok (n, { st with zones := cur1 }) := by
  unfold update_zones
  rw [h]

theorem update_outputs_state (st : WebioState) (ds : List OutputDesc) (n : List Output)
    (st2 : WebioState) (h : update_outputs st ds = .ok (n, st2)) :
    st2.zones = st.zones ∧ st2.info_serial = st.info_serial ∧ st2.info_name = st.info_name ∧
      update_outputs_core st.info_serial st.outputs ds = .ok (n, st2.outputs) := by
  unfold update_outputs at h
  cases hc : update_outputs_core st.info_serial st.outputs ds with
  | error e => rw [hc] at h; cases h
  | ok p =>
    obtain ⟨c, outs⟩ := p
    rw [hc] at h
    cases h
    exact ⟨rfl, rfl, rfl, rfl⟩

theorem update_zones_state (st : WebioState) (ds : List ZoneDesc) (n : List Zone)
    (st2 : WebioState) (h : update_zones st ds = .ok (n, st2)) :
    st2.outputs = st.outputs ∧ st2.info_serial = st.info_serial ∧ st2.info_name = st.info_name ∧
      update_zones_core st.info_serial st.zones ds = .ok (n, st2.zones) := by
  unfold update_zones at h
  cases hc : update_zones_core st.info_serial st.zones ds with
  | error e => rw [hc] at h; cases h
  | ok p =>
    obtain ⟨c, zs⟩ := p
    rw [hc] at h
    cases h
    exact ⟨rfl, rfl, rfl, rfl⟩

theorem update_device_status_mk (st : WebioState) (s : StatusDict)
    (no : List Output) (st1 : WebioState) (nz : List Zone) (st2 : WebioState)
    (h1 : (match s.outputs with
           | none => Except.ok ([], st)
           | some ds => update_outputs st ds) = .ok (no, st1))
    (h2 : (match s.zones with
           | none => Except.ok ([], st1)
           | some ds => update_zones st1 ds) = .ok (nz, st2)) :
    update_device_status st s = .ok ((no, nz), st2) := by
  unfold update_device_status
  rw [h1]
  simp only []
  rw [h2]

theorem update_device_status_inv (st : WebioState) (s : StatusDict)
    (r : List Output × List Zone) (st2 : WebioState)
    (h : update_device_status st s = .ok (r, st2)) :
    ∃ st1, (match s.outputs with
            | none => Except.ok ([], st)
            | some ds => update_outputs st ds) = .ok (r.1, st1) ∧
           (match s.zones with
            | none => Except.ok ([], st1)
            | some ds => update_zones st1 ds) = .ok (r.2, st2) := by
  unfold update_device_status at h
  cases h1 : (match s.outputs with
              | none => Except.ok ([], st)
              | some ds => update_outputs st ds) with
  | error e => rw [h1] at h; cases h
  | ok p =>
    obtain ⟨no, st1⟩ := p
    rw [h1] at h
    simp only [] at h
    cases h2 : (match s.zones with
                | none => Except.ok ([], st1)
                | some ds => update_zones st1 ds) with
    | error e => rw [h2] at h; cases h
    | ok q =>
      obtain ⟨nz, st2x⟩ := q
      rw [h2] at h
      simp only [] at h
      cases h
      exact ⟨st1, rfl, h2⟩

theorem refresh_device_info_collections (st : WebioState) (info : InfoResponse) :
    (refresh_device_info st info).2.outputs = st.outputs ∧
    (refresh_device_info st info).2.zones = st.zones := by
  rcases info with ⟨ws, wn⟩
  cases ws with
  | none => exact ⟨rfl, rfl⟩
  | some v =>
    cases v with
    | nonStr => exact ⟨rfl, rfl⟩
    | str sr =>
      cases wn with
      | none => exact ⟨rfl, rfl⟩
      | some v2 => exact ⟨rfl, rfl⟩

theorem update_outputs_core_total (ser : String) (cur : List Output) (ds : List OutputDesc) :
    ∃ r, update_outputs_core (some ser) cur ds = .ok r := by
  rcases outputsLoop_total ds ser (cur.map markOutputUnavailable) [] [] with ⟨⟨a, b, c⟩, hl⟩
  exact ⟨_, update_outputs_core_eq _ _ _ _ _ _ hl⟩

theorem update_zones_core_total (ser : String) (cur : List Zone) (ds : List ZoneDesc) :
    ∃ r, update_zones_core (some ser) cur ds = .ok r := by
  rcases zonesLoop_total ds ser (cur.map markZoneUnavailable) [] [] with ⟨⟨a, b, c⟩, hl⟩
  exact ⟨_, update_zones_core_eq _ _ _ _ _ _ hl⟩

/-! The claims. -/

/-- C1 counterexample: before refresh_device_info has ever succeeded — the
device serial is unpopulated — a snapshot whose outputs list introduces a new
valid index makes update_device_status raise KeyError instead of returning
normally, so the boolean false of refreshDeviceInfo is not the only failure
signal this core exposes. -/
theorem C1_counterexample :
    update_device_status initState
      { outputs := some [{ index := some 0, status := some ("true") }], zones := some [] } =
      .error .keyError := by
  decide

/-- C1 (amended): once the device serial has been populated by a successful
refresh_device_info, update_device_status returns normally on every raw
snapshot — descriptors lacking an index or carrying a negative index are
skipped, never raised; before the serial is populated, a snapshot that
introduces a new entity index raises KeyError. -/
theorem C1_no_raise_after_serial (st : WebioState) (ser : String)
    (h : st.info_serial = some ser) (s : StatusDict) :
    (update_device_status st s).isOk = true := by
  have hout : ∃ no st1, (match s.outputs with
      | none => Except.ok ([], st)
      | some ds => update_outputs st ds) = .ok (no, st1) ∧ st1.info_serial = some ser := by
    cases ho : s.outputs with
    | none => exact ⟨[], st, rfl, h⟩
    | some ds =>
      rcases update_outputs_core_total ser st.outputs ds with ⟨⟨n, cur1⟩, hc⟩
      rw [← h] at hc
      exact ⟨n, { st with outputs := cur1 }, update_outputs_mk st ds n cur1 hc, h⟩
  rcases hout with ⟨no, st1, h1, hs1⟩
  have hz : ∃ nz st2, (match s.zones with
      | none => Except.ok ([], st1)
      | some ds => update_zones st1 ds) = .ok (nz, st2) := by
    cases hzo : s.zones with
    | none => exact ⟨[], st1, rfl⟩
    | some ds =>
      rcases update_zones_core_total ser st1.zones ds with ⟨⟨n, cur1⟩, hc⟩
      rw [← hs1] at hc
      exact ⟨n, { st1 with zones := cur1 }, update_zones_mk st1 ds n cur1 hc⟩
  rcases hz with ⟨nz, st2, h2⟩
  rw [update_device_status_mk st s no st1 nz st2 h1 h2]
  rfl

/-- C1 witness: a populated serial together with a snapshot containing both
malformed and well-formed descriptors; the call completes normally. -/
theorem C1_no_raise_after_serial_witness :
    (update_device_status
      { info_serial := some ("s"), info_name := none, outputs := [], zones := [] }
      { outputs := some [{ index := none, status := none },
                         { index := some 0, status := some ("true") }],
        zones := some [{ index := some (-3), name := none, status := none, pass_type := none }] }).isOk = true :=
  C1_no_raise_after_serial _ ("s") rfl _

/-- C2 counterexample: a device-info response carrying a valid serial but
missing the name field makes refresh_device_info return false — yet the
serial (hyphens stripped) is stored anyway, so get_serial_number no longer
returns none afterwards. -/
theorem C2_counterexample :
    get_serial_number initState = none ∧
    (refresh_device_info initState
      { webio_serial := some (PyVal.str ("AB-C")), webio_name := none }).1 = false ∧
    get_serial_number (refresh_device_info initState
      { webio_serial := some (PyVal.str ("AB-C")), webio_name := none }).2 = some ("ABC") := by
  exact ⟨rfl, rfl, by decide⟩

/-- C2 (amended): on a device-info response missing the serial, carrying a
non-string serial, or missing the name, refresh_device_info returns false and
propagates no exception; the stored name is left untouched; the stored serial
is left untouched unless the response carried a string serial with the name
missing, in which case the serial is stored (hyphens stripped) despite the
false return. -/
theorem C2_refresh_failure (st : WebioState) (info : InfoResponse)
    (h : info.webio_serial = none ∨ info.webio_serial = some PyVal.nonStr ∨
         info.webio_name = none) :
    (refresh_device_info st info).1 = false ∧
    (refresh_device_info st info).2.info_name = st.info_name ∧
    ((∀ sr, info.webio_serial ≠ some (PyVal.str sr)) →
      get_serial_number (refresh_device_info st info).2 = get_serial_number st) ∧
    (∀ sr, info.webio_serial = some (PyVal.str sr) → info.webio_name = none →
      get_serial_number (refresh_device_info st info).2 = some (stripHyphens sr)) := by
  rcases info with ⟨ws, wn⟩
  cases ws with
  | none =>
    refine ⟨rfl, rfl, fun _ => rfl, ?_⟩
    intro sr hsr
    cases hsr
  | some v =>
    cases v with
    | nonStr =>
      refine ⟨rfl, rfl, fun _ => rfl, ?_⟩
      intro sr hsr
      cases hsr
    | str sr0 =>
      have hwn : wn = none := by
        rcases h with h1 | h2 | h3
        · cases h1
        · cases h2
        · exact h3
      subst hwn
      refine ⟨rfl, rfl, ?_, ?_⟩
      · intro hne
        exact absurd rfl (hne sr0)
      · intro sr hsr _
        cases hsr
        rfl

/-- C2 witness: a response missing both fields yields a false return with the
name left unset. -/
theorem C2_refresh_failure_witness :
    (refresh_device_info initState { webio_serial := none, webio_name := none }).1 = false :=
  (C2_refresh_failure initState { webio_serial := none, webio_name := none } (Or.inl rfl)).1

/-- C3 counterexample: a non-empty outputs list whose only descriptor is
malformed (no index).  The claim would have the retained collection filtered
against the empty seen-set, leaving it empty; the code skips the prune
(guarded by the seen-index count, not the list length) and keeps the entity,
merely marked unavailable. -/
theorem C3_counterexample :
    update_device_status
      { info_serial := some ("s"), info_name := none,
        outputs := [Output.make 0 ("s") (some true)], zones := [] }
      { outputs := some [{ index := none, status := none }], zones := some [] } =
      .ok (([], []),
        { info_serial := some ("s"), info_name := none,
          outputs := [{ index := 0, state := none, available := false, webio_serial := ("s") }],
          zones := [] }) ∧
    ([{ index := none, status := none }] : List OutputDesc) ≠ [] := by
  exact ⟨by decide, by decide⟩

/-- C3 (amended): reconciliation of a category prunes the retained collection
to exactly the indices seen this round if and only if at least one descriptor
carried a valid (non-negative) index; when the incoming list is non-empty but
every descriptor is malformed, the seen-index list is empty and no pruning
happens — every retained entity survives, marked unavailable. -/
theorem C3_prune_guard (so : Option String) (cur : List Output) (ds : List OutputDesc)
    (n cur1 : List Output) (h : update_outputs_core so cur ds = .ok (n, cur1))
    (curz : List Zone) (dsz : List ZoneDesc) (nz curz1 : List Zone)
    (hz : update_zones_core so curz dsz = .ok (nz, curz1)) :
    ((seenIdxOut ds = [] → cur1 = cur.map markOutputUnavailable) ∧
     (seenIdxOut ds ≠ [] →
       (∀ o ∈ cur1, o.index ∈ seenIdxOut ds) ∧
       (∀ i ∈ seenIdxOut ds, ∃ o ∈ cur1, o.index = i))) ∧
    ((seenIdxZone dsz = [] → curz1 = curz.map markZoneUnavailable) ∧
     (seenIdxZone dsz ≠ [] →
       (∀ z ∈ curz1, z.index ∈ seenIdxZone dsz) ∧
       (∀ i ∈ seenIdxZone dsz, ∃ z ∈ curz1, z.index = i))) := by
  constructor
  · cases hl : outputsLoop so (cur.map markOutputUnavailable) [] [] ds with
    | error e => rw [update_outputs_core_err so cur ds e hl] at h; cases h
    | ok t =>
      obtain ⟨a, b, c⟩ := t
      rw [update_outputs_core_eq so cur ds _ _ _ hl] at h
      have hb : b = seenIdxOut ds := by
        have := outputsLoop_seen ds _ _ _ _ _ _ _ hl
        simpa using this
      subst hb
      cases h
      constructor
      · intro hse
        rw [if_neg (by rw [hse]; simp)]
        rw [hse] at hl
        have := outputsLoop_no_valid ds hse so (cur.map markOutputUnavailable) [] []
        rw [this] at hl
        cases hl
        rfl
      · intro hse
        rw [if_pos (List.length_pos.mpr hse)]
        constructor
        · intro o ho
          exact (int_contains_iff _ _).mp
            (@List.of_mem_filter _ (fun w => (seenIdxOut ds).contains w.index) o a ho)
        · intro i hi
          have := outputsLoop_seen_present ds _ _ _ _ _ _ _ hl i hi
          cases hgi : get_output a i with
          | none => rw [hgi] at this; cases this
          | some o =>
            rcases get_output_mem a i o hgi with ⟨hmem, hidx⟩
            refine ⟨o, List.mem_filter.mpr ⟨hmem, ?_⟩, hidx⟩
            rw [hidx]
            exact (int_contains_iff _ _).mpr hi
  · cases hl : zonesLoop so (curz.map markZoneUnavailable) [] [] dsz with
    | error e => rw [update_zones_core_err so curz dsz e hl] at hz; cases hz
    | ok t =>
      obtain ⟨a, b, c⟩ := t
      rw [update_zones_core_eq so curz dsz _ _ _ hl] at hz
      have hb : b = seenIdxZone dsz := by
        have := zonesLoop_seen dsz _ _ _ _ _ _ _ hl
        simpa using this
      subst hb
      cases hz
      constructor
      · intro hse
        rw [if_neg (by rw [hse]; simp)]
        rw [hse] at hl
        have := zonesLoop_no_valid dsz hse so (curz.map markZoneUnavailable) [] []
        rw [this] at hl
        cases hl
        rfl
      · intro hse
        rw [if_pos (List.length_pos.mpr hse)]
        constructor
        · intro z hzm
          exact (int_contains_iff _ _).mp
            (@List.of_mem_filter _ (fun w => (seenIdxZone dsz).contains w.index) z a hzm)
        · intro i hi
          have := zonesLoop_seen_present dsz _ _ _ _ _ _ _ hl i hi
          cases hgi : get_zone a i with
          | none => rw [hgi] at this; cases this
          | some z =>
            rcases get_zone_mem a i z hgi with ⟨hmem, hidx⟩
            refine ⟨z, List.mem_filter.mpr ⟨hmem, ?_⟩, hidx⟩
            rw [hidx]
            exact (int_contains_iff _ _).mpr hi

/-- C3 witness: a pass with no descriptors leaves the retained output merely
marked unavailable. -/
theorem C3_prune_guard_witness :
    ([({ index := 0, state := none, available := false, webio_serial := ("s") } : Output)]) =
      ([Output.make 0 ("s") (some true)]).map markOutputUnavailable :=
  ((C3_prune_guard (some ("s")) [Output.make 0 ("s") (some true)] [] []
      [({ index := 0, state := none, available := false, webio_serial := ("s") } : Output)]
      (by decide) [] [] [] [] (by decide)).1).1 rfl

/-- C4: reconciliation is idempotent — whenever update_device_status applies
a snapshot successfully, immediately re-applying the same snapshot succeeds,
creates no new entity in either category, and leaves the retained output and
zone collections (membership, order, and every entity's fields) exactly as
after the first application. -/
theorem C4_idempotent (st : WebioState) (s : StatusDict)
    (r : List Output × List Zone) (st1 : WebioState)
    (h : update_device_status st s = .ok (r, st1)) :
    update_device_status st1 s = .ok (([], []), st1) := by
  obtain ⟨r1, r2⟩ := r
  rcases update_device_status_inv st s (r1, r2) st1 h with ⟨stA, h1, h2⟩
  have hzfacts : st1.outputs = stA.outputs ∧ st1.info_serial = stA.info_serial ∧
      (match s.zones with
       | none => Except.ok ([], st1)
       | some ds => update_zones st1 ds) = .ok ([], st1) := by
    cases hzo : s.zones with
    | none =>
      rw [hzo] at h2
      cases h2
      exact ⟨rfl, rfl, rfl⟩
    | some ds =>
      rw [hzo] at h2
      rcases update_zones_state stA ds r2 st1 h2 with ⟨hzout, hzser, hznm, hzc⟩
      have hidem := update_zones_core_idem stA.info_serial stA.zones ds r2 st1.zones hzc
      have hcall : update_zones st1 ds = .ok ([], { st1 with zones := st1.zones }) := by
        refine update_zones_mk st1 ds [] st1.zones ?_
        rw [hzser]
        exact hidem
      rw [show ({ st1 with zones := st1.zones } : WebioState) = st1 from rfl] at hcall
      exact ⟨hzout, hzser, hcall⟩
  rcases hzfacts with ⟨hout1, hser1, hstage2⟩
  have hstage1 : (match s.outputs with
      | none => Except.ok ([], st1)
      | some ds => update_outputs st1 ds) = .ok ([], st1) := by
    cases ho : s.outputs with
    | none =>
      rw [ho] at h1
    | some ds =>
      rw [ho] at h1
      rcases update_outputs_state st ds r1 stA h1 with ⟨hoz, hos, hon, hoc⟩
      have hidem := update_outputs_core_idem st.info_serial st.outputs ds r1 stA.outputs hoc
      have hcore : update_outputs_core st1.info_serial st1.outputs ds = .ok ([], st1.outputs) := by
        rw [hout1, hser1, hos]
        exact hidem
      have hcall := update_outputs_mk st1 ds [] st1.outputs hcore
      rw [show ({ st1 with outputs := st1.outputs } : WebioState) = st1 from rfl] at hcall
      exact hcall
  exact update_device_status_mk st1 s [] st1 [] st1 hstage1 hstage2

/-- C4 witness: applying a concrete snapshot to a fresh facade, then applying
it again, yields no newly created entities and the same state. -/
theorem C4_idempotent_witness :
    update_device_status
      { info_serial := some ("s"), info_name := none,
        outputs := [{ index := 0, state := some true, available := true, webio_serial := ("s") }],
        zones := [] }
      { outputs := some [{ index := some 0, status := some ("true") }], zones := some [] } =
      .ok (([], []),
        { info_serial := some ("s"), info_name := none,
          outputs := [{ index := 0, state := some true, available := true, webio_serial := ("s") }],
          zones := [] }) :=
  C4_idempotent
    { info_serial := some ("s"), info_name := none, outputs := [], zones := [] }
    { outputs := some [{ index := some 0, status := some ("true") }], zones := some [] }
    ([{ index := 0, state := some true, available := true, webio_serial := ("s") }], [])
    { info_serial := some ("s"), info_name := none,
      outputs := [{ index := 0, state := some true, available := true, webio_serial := ("s") }],
      zones := [] }
    (by decide)

/-- C5: available equals (state is defined) immediately after construction of
an Output or Zone, after the mark-unavailable pass, after every in-place
snapshot-pass field assignment, and for every retained entity of every
facade state reachable through this core's operations. -/
theorem C5_available_invariant :
    (∀ (i : Int) (ser : String) (stt : Option Bool),
      (Output.make i ser stt).available = (Output.make i ser stt).state.isSome) ∧
    (∀ (i : Int) (ser : String) (stt : Option String),
      (Zone.make i ser stt).available = (Zone.make i ser stt).state.isSome) ∧
    (∀ o : Output, (markOutputUnavailable o).available = (markOutputUnavailable o).state.isSome) ∧
    (∀ z : Zone, (markZoneUnavailable z).available = (markZoneUnavailable z).state.isSome) ∧
    (∀ (o : Output) (v : Option Bool),
      (outApply o v).available = (outApply o v).state.isSome) ∧
    (∀ (z : Zone) (nm : Option String) (stv : Option String) (pt : Int),
      (zoneApply z nm stv pt).available = (zoneApply z nm stv pt).state.isSome) ∧
    (∀ st : WebioState, Reachable st →
      (∀ o ∈ st.outputs, o.available = o.state.isSome) ∧
      (∀ z ∈ st.zones, z.available = z.state.isSome)) := by
  refine ⟨fun _ _ _ => rfl, fun _ _ _ => rfl, fun _ => rfl, fun _ => rfl,
    fun _ _ => rfl, fun _ _ _ _ => rfl, ?_⟩
  intro st hr
  induction hr with
  | init =>
    constructor
    · intro o ho; cases ho
    · intro z hz; cases hz
  | refresh st0 info hr0 ih =>
    rcases refresh_device_info_collections st0 info with ⟨ho, hz⟩
    rw [ho, hz]
    exact ih
  | update st0 s r st2 hr0 hupd ih =>
    obtain ⟨r1, r2⟩ := r
    rcases update_device_status_inv st0 s (r1, r2) st2 hupd with ⟨stA, h1, h2⟩
    have hA : (∀ o ∈ stA.outputs, o.available = o.state.isSome) ∧
        (∀ z ∈ stA.zones, z.available = z.state.isSome) := by
      cases ho : s.outputs with
      | none => rw [ho] at h1; cases h1; exact ih
      | some ds =>
        rw [ho] at h1
        rcases update_outputs_state st0 ds r1 stA h1 with ⟨hzz, _, _, hc⟩
        refine ⟨(update_outputs_core_inv _ _ _ _ _ hc).1, ?_⟩
        rw [hzz]
        exact ih.2
    cases hzo : s.zones with
    | none => rw [hzo] at h2; cases h2; exact hA
    | some ds =>
      rw [hzo] at h2
      rcases update_zones_state stA ds r2 st2 h2 with ⟨hoo, _, _, hc⟩
      refine ⟨?_, (update_zones_core_inv _ _ _ _ _ hc).1⟩
      rw [hoo]
      exact hA.1

/-- C5 witness: the constructor invariant at a concrete output. -/
theorem C5_available_invariant_witness :
    (Output.make 3 ("x") (some true)).available = (Output.make 3 ("x") (some true)).state.isSome :=
  C5_available_invariant.1 3 ("x") (some true)

/-- C6: pruning scenario — retained zones with indices exactly 0, 1, 2, a
snapshot listing zone descriptors with indices exactly 1 and 3.  After
reconciliation the retained zones are exactly index 1 (the same record with
its fields updated in place) followed by a freshly created zone 3, which is
also the sole newly-created zone; zone 0 (and 2) are removed outright. -/
theorem C6_prune_scenario (ser : String) (inm : Option PyVal) (outs0 : List Output)
    (z0 z1 z2 : Zone) (h0 : z0.index = 0) (h1 : z1.index = 1) (h2 : z2.index = 2)
    (d1 d3 : ZoneDesc) (hd1 : d1.index = some 1) (hd3 : d3.index = some 3) :
    update_zones
      { info_serial := some ser, info_name := inm, outputs := outs0, zones := [z0, z1, z2] }
      [d1, d3] =
      .ok ([zoneApply (Zone.make 3 ser none) d3.name (convert_zone_status d3.status) (d3.pass_type.getD 2)],
        { info_serial := some ser, info_name := inm, outputs := outs0,
          zones := [zoneApply z1 d1.name (convert_zone_status d1.status) (d1.pass_type.getD 2),
                    zoneApply (Zone.make 3 ser none) d3.name (convert_zone_status d3.status) (d3.pass_type.getD 2)] }) := by
  have hidx1 : zoneDescIndex d1 = 1 := by simp [zoneDescIndex, hd1]
  have hidx3 : zoneDescIndex d3 = 3 := by simp [zoneDescIndex, hd3]
  have hmz0 : (markZoneUnavailable z0).index = 0 := by rw [markZoneUnavailable_index, h0]
  have hmz1 : (markZoneUnavailable z1).index = 1 := by rw [markZoneUnavailable_index, h1]
  have hmz2 : (markZoneUnavailable z2).index = 2 := by rw [markZoneUnavailable_index, h2]
  have b01 : ((markZoneUnavailable z0).index == 1) = false := by rw [hmz0]; decide
  have b11 : ((markZoneUnavailable z1).index == 1) = true := by rw [hmz1]; decide
  have b03 : ((markZoneUnavailable z0).index == 3) = false := by rw [hmz0]; decide
  have b23 : ((markZoneUnavailable z2).index == 3) = false := by rw [hmz2]; decide
  have b13 : ((zoneApply z1 d1.name (convert_zone_status d1.status) (d1.pass_type.getD 2)).index == 3) = false := by
    rw [zoneApply_index, h1]; decide
  have hg1 : get_zone [markZoneUnavailable z0, markZoneUnavailable z1, markZoneUnavailable z2] 1 =
      some (markZoneUnavailable z1) := by
    simp [get_zone_cons, b01, b11]
  have hsetz : setZoneFields [markZoneUnavailable z0, markZoneUnavailable z1, markZoneUnavailable z2] 1
      d1.name (convert_zone_status d1.status) (d1.pass_type.getD 2) =
      [markZoneUnavailable z0,
       zoneApply z1 d1.name (convert_zone_status d1.status) (d1.pass_type.getD 2),
       markZoneUnavailable z2] := by
    rw [setZoneFields_cons_ne _ _ _ _ _ _ b01, setZoneFields_cons_eq _ _ _ _ _ _ b11,
        zoneApply_mark]
  have hg3 : get_zone [markZoneUnavailable z0,
      zoneApply z1 d1.name (convert_zone_status d1.status) (d1.pass_type.getD 2),
      markZoneUnavailable z2] 3 = none := by
    simp [get_zone_cons, b03, b13, b23, get_zone_nil]
  have hloop : zonesLoop (some ser)
      [markZoneUnavailable z0, markZoneUnavailable z1, markZoneUnavailable z2] [] [] [d1, d3] =
      .ok ([markZoneUnavailable z0,
            zoneApply z1 d1.name (convert_zone_status d1.status) (d1.pass_type.getD 2),
            markZoneUnavailable z2,
            zoneApply (Zone.make 3 ser none) d3.name (convert_zone_status d3.status) (d3.pass_type.getD 2)],
           [1, 3],
           [zoneApply (Zone.make 3 ser none) d3.name (convert_zone_status d3.status) (d3.pass_type.getD 2)]) := by
    rw [zonesLoop_cons_found (some ser) _ [] [] d1 [d3] (markZoneUnavailable z1)
          (by rw [hidx1]; decide) (by rw [hidx1]; exact hg1),
        hidx1, setZoneFields_nil, hsetz]
    rw [zonesLoop_cons_new (some ser) _ _ _ d3 [] ser
          (by rw [hidx3]; decide) (by rw [hidx3]; exact hg3) rfl,
        hidx3, zonesLoop_nil]
    rfl
  refine update_zones_mk _ [d1, d3] _ _ ?_
  show update_zones_core (some ser) [z0, z1, z2] [d1, d3] = _
  rw [update_zones_core_eq (some ser) [z0, z1, z2] [d1, d3] _ _ _ hloop,
      if_pos (by decide : 0 < ([1, 3] : List Int).length)]
  have c0 : (([1, 3] : List Int).contains 0) = false := by decide
  have c1 : (([1, 3] : List Int).contains 1) = true := by decide
  have c2 : (([1, 3] : List Int).contains 2) = false := by decide
  have c3 : (([1, 3] : List Int).contains 3) = true := by decide
  have hfil : ([markZoneUnavailable z0,
      zoneApply z1 d1.name (convert_zone_status d1.status) (d1.pass_type.getD 2),
      markZoneUnavailable z2,
      zoneApply (Zone.make 3 ser none) d3.name (convert_zone_status d3.status) (d3.pass_type.getD 2)]).filter
        (fun z => ([1, 3] : List Int).contains z.index) =
      [zoneApply z1 d1.name (convert_zone_status d1.status) (d1.pass_type.getD 2),
       zoneApply (Zone.make 3 ser none) d3.name (convert_zone_status d3.status) (d3.pass_type.getD 2)] := by
    simp [List.filter_cons, hmz0, hmz2, zoneApply_index, h1, c0, c1, c2, c3,
      show (Zone.make 3 ser none).index = 3 from rfl]
  rw [hfil]

/-- C6 witness: the scenario at concrete zones and descriptors. -/
theorem C6_prune_scenario_witness :
    update_zones
      { info_serial := some ("s"), info_name := none, outputs := [],
        zones := [Zone.make 0 ("s") none, Zone.make 1 ("s") none, Zone.make 2 ("s") none] }
      [{ index := some 1, name := some ("a"), status := some ("armed"), pass_type := none },
       { index := some 3, name := none, status := none, pass_type := some 7 }] =
      .ok ([zoneApply (Zone.make 3 ("s") none) none (convert_zone_status none) 7],
        { info_serial := some ("s"), info_name := none, outputs := [],
          zones := [zoneApply (Zone.make 1 ("s") none) (some ("a")) (convert_zone_status (some ("armed"))) 2,
                    zoneApply (Zone.make 3 ("s") none) none (convert_zone_status none) 7] }) :=
  C6_prune_scenario ("s") none [] (Zone.make 0 ("s") none) (Zone.make 1 ("s") none)
    (Zone.make 2 ("s") none) rfl rfl rfl
    { index := some 1, name := some ("a"), status := some ("armed"), pass_type := none }
    { index := some 3, name := none, status := none, pass_type := some 7 } rfl rfl

/-- C7: a snapshot whose category lists are present but empty keeps every
retained entity of each category (same count, nothing deleted), setting each
one to unknown state and unavailable. -/
theorem C7_empty_lists (st : WebioState) :
    update_device_status st { outputs := some [], zones := some [] } =
      .ok (([], []),
        { st with outputs := st.outputs.map markOutputUnavailable,
                  zones := st.zones.map markZoneUnavailable }) ∧
    (st.outputs.map markOutputUnavailable).length = st.outputs.length ∧
    (st.zones.map markZoneUnavailable).length = st.zones.length ∧
    (∀ o ∈ st.outputs.map markOutputUnavailable, o.state = none ∧ o.available = false) ∧
    (∀ z ∈ st.zones.map markZoneUnavailable, z.state = none ∧ z.available = false) := by
  refine ⟨?_, List.length_map _ _, List.length_map _ _, ?_, ?_⟩
  · have hco : update_outputs_core st.info_serial st.outputs [] =
        .ok ([], st.outputs.map markOutputUnavailable) := by
      rw [update_outputs_core_eq st.info_serial st.outputs [] _ _ _
            (outputsLoop_nil st.info_serial (st.outputs.map markOutputUnavailable) [] [])]
      simp
    have hcz : update_zones_core st.info_serial st.zones [] =
        .ok ([], st.zones.map markZoneUnavailable) := by
      rw [update_zones_core_eq st.info_serial st.zones [] _ _ _
            (zonesLoop_nil st.info_serial (st.zones.map markZoneUnavailable) [] [])]
      simp
    refine update_device_status_mk st _ []
        { st with outputs := st.outputs.map markOutputUnavailable } [] _ ?_ ?_
    · exact update_outputs_mk st [] [] _ hco
    · exact update_zones_mk { st with outputs := st.outputs.map markOutputUnavailable } [] [] _ hcz
  · intro o ho
    rcases List.mem_map.mp ho with ⟨w, _, hw⟩
    rw [← hw]
    exact ⟨rfl, rfl⟩
  · intro z hz
    rcases List.mem_map.mp hz with ⟨w, _, hw⟩
    rw [← hw]
    exact ⟨rfl, rfl⟩

/-- C7 witness: the empty-list snapshot at a concrete facade state. -/
theorem C7_empty_lists_witness :
    update_device_status
      { info_serial := some ("s"), info_name := none,
        outputs := [Output.make 0 ("s") (some true)], zones := [] }
      { outputs := some [], zones := some [] } =
      .ok (([], []),
        { info_serial := some ("s"), info_name := none,
          outputs := [{ index := 0, state := none, available := false, webio_serial := ("s") }],
          zones := [] }) :=
  (C7_empty_lists
    { info_serial := some ("s"), info_name := none,
      outputs := [Output.make 0 ("s") (some true)], zones := [] }).1

/-- C8: a snapshot lacking a category key entirely leaves that category's
retained collection and every entity in it untouched, reports an empty
newly-created list for it, and processes the other category exactly as its
reconciliation pass would. -/
theorem C8_absent_category (st : WebioState) :
    (∀ (zl : Option (List ZoneDesc)) (r : List Output × List Zone) (st2 : WebioState),
      update_device_status st { outputs := none, zones := zl } = .ok (r, st2) →
      st2.outputs = st.outputs ∧ r.1 = [] ∧
      (∀ ds, zl = some ds → update_zones st ds = .ok (r.2, st2))) ∧
    (∀ (ol : Option (List OutputDesc)) (r : List Output × List Zone) (st2 : WebioState),
      update_device_status st { outputs := ol, zones := none } = .ok (r, st2) →
      st2.zones = st.zones ∧ r.2 = [] ∧
      (∀ ds, ol = some ds → update_outputs st ds = .ok (r.1, st2))) := by
  constructor
  · intro zl r st2 h
    obtain ⟨r1, r2⟩ := r
    rcases update_device_status_inv st _ (r1, r2) st2 h with ⟨st1, h1, h2⟩
    have h1x : (Except.ok ([], st) : Except PyErr (List Output × WebioState)) = .ok (r1, st1) := h1
    cases h1x
    refine ⟨?_, rfl, ?_⟩
    · cases hz : zl with
      | none =>
        rw [hz] at h2
        have h2x : (Except.ok ([], st) : Except PyErr (List Zone × WebioState)) = .ok (r2, st2) := h2
        cases h2x
        rfl
      | some ds =>
        rw [hz] at h2
        exact (update_zones_state st ds r2 st2 h2).1
    · intro ds hds
      subst hds
      exact h2
  · intro ol r st2 h
    obtain ⟨r1, r2⟩ := r
    rcases update_device_status_inv st _ (r1, r2) st2 h with ⟨st1, h1, h2⟩
    have h2x : (Except.ok ([], st1) : Except PyErr (List Zone × WebioState)) = .ok (r2, st2) := h2
    injection h2x with hp
    injection hp with hr2 hst
    subst hr2
    subst hst
    refine ⟨?_, rfl, ?_⟩
    · cases ho : ol with
      | none =>
        rw [ho] at h1
        have h1x : (Except.ok ([], st) : Except PyErr (List Output × WebioState)) = .ok (r1, st1) := h1
        injection h1x with hp1
        injection hp1 with hr1 hst1
        rw [← hst1]
      | some ds =>
        rw [ho] at h1
        exact (update_outputs_state st ds r1 st1 h1).1
    · intro ds hds
      subst hds
      exact h1

/-- C8 witness: no outputs key, empty zones list: the retained output is
untouched while the zone is marked unavailable by the zone pass. -/
theorem C8_absent_category_witness :
    ({ info_serial := some ("s"), info_name := none,
       outputs := [Output.make 7 ("s") (some true)],
       zones := [{ index := 5, name := none, state := none, pass_type := 2,
                   available := false, webio_serial := ("s") }] } : WebioState).outputs =
    ({ info_serial := some ("s"), info_name := none,
       outputs := [Output.make 7 ("s") (some true)],
       zones := [Zone.make 5 ("s") (some ("disarmed"))] } : WebioState).outputs :=
  ((C8_absent_category
      { info_serial := some ("s"), info_name := none,
        outputs := [Output.make 7 ("s") (some true)],
        zones := [Zone.make 5 ("s") (some ("disarmed"))] }).1
    (some []) ([], [])
    { info_serial := some ("s"), info_name := none,
      outputs := [Output.make 7 ("s") (some true)],
      zones := [{ index := 5, name := none, state := none, pass_type := 2,
                  available := false, webio_serial := ("s") }] }
    (by decide)).1

/-- C9: the status translators are pure total functions with exactly the
documented vocabulary; every unrecognized or missing status degrades to
unknown (hence unavailable). -/
theorem C9_translators :
    convert_outputs_status (some ("true")) = some true ∧
    convert_outputs_status (some ("false")) = some false ∧
    convert_outputs_status none = none ∧
    (∀ sv : String, sv ≠ ("true") → sv ≠ ("false") →
      convert_outputs_status (some sv) = none) ∧
    convert_zone_status (some ("alarm")) = some ("triggered") ∧
    convert_zone_status (some ("armed")) = some ("armed_away") ∧
    convert_zone_status (some ("disarmed")) = some ("disarmed") ∧
    convert_zone_status none = none ∧
    (∀ sv : String, sv ≠ ("alarm") → sv ≠ ("armed") → sv ≠ ("disarmed") →
      convert_zone_status (some sv) = none) := by
  refine ⟨by decide, by decide, rfl, ?_, by decide, by decide, by decide, rfl, ?_⟩
  · intro sv hv1 hv2
    show (if sv = ("true") then some true
          else if sv = ("false") then some false else none) = none
    rw [if_neg hv1, if_neg hv2]
  · intro sv hv1 hv2 hv3
    show (if sv = ("alarm") then some ("triggered")
          else if sv = ("armed") then some ("armed_away")
          else if sv = ("disarmed") then some ("disarmed") else none) = none
    rw [if_neg hv1, if_neg hv2, if_neg hv3]

/-- C9 witness: an unrecognized output status maps to unknown. -/
theorem C9_translators_witness : convert_outputs_status (some ("xyz")) = none :=
  C9_translators.2.2.2.1 ("xyz") (by decide) (by decide)

/-- C10: starting from the fresh facade, after every sequence of operations
no two retained outputs and no two retained zones share an index; and within
one pass the last descriptor carrying a given index determines the retained
entity's final fields, so an earlier duplicate never yields a second
entity. -/
theorem C10_index_uniqueness :
    (∀ st : WebioState, Reachable st →
      (st.outputs.map (fun o => o.index)).Nodup ∧
      (st.zones.map (fun z => z.index)).Nodup) ∧
    (∀ so cur ds n cur1 i d, update_outputs_core so cur ds = .ok (n, cur1) →
      lastDescOut i ds = some d →
      ∃ e, get_output cur1 i = some e ∧
        e.state = convert_outputs_status d.status ∧
        e.available = (convert_outputs_status d.status).isSome) ∧
    (∀ so cur ds n cur1 i d, update_zones_core so cur ds = .ok (n, cur1) →
      lastDescZone i ds = some d →
      ∃ e, get_zone cur1 i = some e ∧
        e.name = d.name ∧ e.state = convert_zone_status d.status ∧
        e.available = (convert_zone_status d.status).isSome ∧
        e.pass_type = d.pass_type.getD 2) := by
  refine ⟨?_, ?_, ?_⟩
  · intro st hr
    induction hr with
    | init => exact ⟨List.nodup_nil, List.nodup_nil⟩
    | refresh st0 info hr0 ih =>
      rcases refresh_device_info_collections st0 info with ⟨ho, hz⟩
      rw [ho, hz]
      exact ih
    | update st0 s r st2 hr0 hupd ih =>
      obtain ⟨r1, r2⟩ := r
      rcases update_device_status_inv st0 s (r1, r2) st2 hupd with ⟨stA, h1, h2⟩
      have hA : (stA.outputs.map (fun o => o.index)).Nodup ∧
          (stA.zones.map (fun z => z.index)).Nodup := by
        cases ho : s.outputs with
        | none => rw [ho] at h1; cases h1; exact ih
        | some ds =>
          rw [ho] at h1
          rcases update_outputs_state st0 ds r1 stA h1 with ⟨hzz, _, _, hc⟩
          refine ⟨update_outputs_core_nodup _ _ _ _ _ hc ih.1, ?_⟩
          rw [hzz]
          exact ih.2
      cases hzo : s.zones with
      | none => rw [hzo] at h2; cases h2; exact hA
      | some ds =>
        rw [hzo] at h2
        rcases update_zones_state stA ds r2 st2 h2 with ⟨hoo, _, _, hc⟩
        refine ⟨?_, update_zones_core_nodup _ _ _ _ _ hc hA.2⟩
        rw [hoo]
        exact hA.1
  · intro so cur ds n cur1 i d h hd
    cases hl : outputsLoop so (cur.map markOutputUnavailable) [] [] ds with
    | error e => rw [update_outputs_core_err so cur ds e hl] at h; cases h
    | ok t =>
      obtain ⟨a, b, c⟩ := t
      rw [update_outputs_core_eq so cur ds _ _ _ hl] at h
      have hb : b = seenIdxOut ds := by
        have := outputsLoop_seen ds _ _ _ _ _ _ _ hl
        simpa using this
      subst hb
      have hiseen : i ∈ seenIdxOut ds := (mem_seenIdxOut_iff i ds).mpr (by rw [hd]; rfl)
      have hne : seenIdxOut ds ≠ [] := by
        intro hc2
        rw [hc2] at hiseen
        cases hiseen
      rw [if_pos (List.length_pos.mpr hne)] at h
      cases h
      have hLW := outputsLoop_last_wins ds _ _ _ _ _ _ _ hl i d hd
      have hkeep : get_output (a.filter (fun o => (seenIdxOut ds).contains o.index)) i =
          get_output a i := by
        rw [get_output_filter a (fun j => (seenIdxOut ds).contains j) i,
            if_pos ((int_contains_iff _ _).mpr hiseen)]
      cases hbase : get_output (cur.map markOutputUnavailable) i with
      | some e =>
        refine ⟨outApply e (convert_outputs_status d.status), ?_, rfl, rfl⟩
        rw [hkeep]
        exact hLW.1 e hbase
      | none =>
        rcases hLW.2 hbase with ⟨ser, _, hai⟩
        refine ⟨outApply (Output.make i ser none) (convert_outputs_status d.status), ?_, rfl, rfl⟩
        rw [hkeep]
        exact hai
  · intro so cur ds n cur1 i d h hd
    cases hl : zonesLoop so (cur.map markZoneUnavailable) [] [] ds with
    | error e => rw [update_zones_core_err so cur ds e hl] at h; cases h
    | ok t =>
      obtain ⟨a, b, c⟩ := t
      rw [update_zones_core_eq so cur ds _ _ _ hl] at h
      have hb : b = seenIdxZone ds := by
        have := zonesLoop_seen ds _ _ _ _ _ _ _ hl
        simpa using this
      subst hb
      have hiseen : i ∈ seenIdxZone ds := (mem_seenIdxZone_iff i ds).mpr (by rw [hd]; rfl)
      have hne : seenIdxZone ds ≠ [] := by
        intro hc2
        rw [hc2] at hiseen
        cases hiseen
      rw [if_pos (List.length_pos.mpr hne)] at h
      cases h
      have hLW := zonesLoop_last_wins ds _ _ _ _ _ _ _ hl i d hd
      have hkeep : get_zone (a.filter (fun z => (seenIdxZone ds).contains z.index)) i =
          get_zone a i := by
        rw [get_zone_filter a (fun j => (seenIdxZone ds).contains j) i,
            if_pos ((int_contains_iff _ _).mpr hiseen)]
      cases hbase : get_zone (cur.map markZoneUnavailable) i with
      | some e =>
        refine ⟨zoneApply e d.name (convert_zone_status d.status) (d.pass_type.getD 2),
          ?_, rfl, rfl, rfl, rfl⟩
        rw [hkeep]
        exact hLW.1 e hbase
      | none =>
        rcases hLW.2 hbase with ⟨ser, _, hai⟩
        refine ⟨zoneApply (Zone.make i ser none) d.name (convert_zone_status d.status) (d.pass_type.getD 2),
          ?_, rfl, rfl, rfl, rfl⟩
        rw [hkeep]
        exact hai

/-- C10 witness: with two descriptors for index 0 in one snapshot, the single
retained output carries the fields of the later descriptor. -/
theorem C10_index_uniqueness_witness :
    ∃ e, get_output
        [({ index := 0, state := some false, available := true, webio_serial := ("s") } : Output)] 0 =
        some e ∧
      e.state = convert_outputs_status (some ("false")) ∧
      e.available = (convert_outputs_status (some ("false"))).isSome :=
  C10_index_uniqueness.2.1 (some ("s")) []
    [{ index := some 0, status := some ("true") }, { index := some 0, status := some ("false") }]
    [({ index := 0, state := some false, available := true, webio_serial := ("s") } : Output)]
    [({ index := 0, state := some false, available := true, webio_serial := ("s") } : Output)]
    0 { index := some 0, status := some ("false") }
    (by decide) (by decide)

end Webio
